import Mathlib

/-!
# Timer scheduler (scheduler.h, scheduler.c)

A shallow embedding of the event queue of `scheduler.c` and of the four entry
points `schedule`, `aschedule`, `deschedule` and `alarm_handler`.

* `time_t` and `suseconds_t` are 64-bit `long`s.  A field is an integer, and
  every sum or difference the code computes is passed through `wrap`: signed
  overflow, undefined in C, is modelled as the two's-complement wrap-around of
  64-bit targets.
* Pointers are natural numbers, `0` being `NULL`.  A queue node is identified by
  its address `addr`; the `next` link is the tail of the Lean list.
* The results of the library calls made by one entry point (`malloc`,
  `gettimeofday`, `sigprocmask(SIG_BLOCK)`, `setitimer`) are inputs, collected
  in `Sys`.
* The kernel's one-shot `ITIMER_REAL` is `State.timer`: `none` when disarmed,
  `some t` when armed, where `t` (in microseconds) is the clock reading the
  arming entry point took plus the `it_value` it passed.  The kernel counts
  `it_value` from the `setitimer` call itself, so the timer really expires at
  `t` or later, by the time that went by between the clock read and the call.
* In `alarm_handler` a callback is a black box: the handler records which
  entries it invokes, and a callback does not itself touch the queue.
* `alarm_handler_run` is the handler with callbacks that call back into the
  scheduler; together with the `_acts` functions it records, in program order,
  what each entry point does to the signal mask, the queue and the timer.
-/

namespace Scheduler

/-! ## Data model -/

/-- A `struct timeval`. -/
structure Timeval where
  tv_sec : Int
  tv_usec : Int
deriving DecidableEq, Repr

/-- A `struct schedule_entry`, living at address `addr`. -/
structure schedule_entry where
  addr : Nat
  tv : Timeval
  func : Nat
  data : Nat
deriving DecidableEq, Repr

/-- The global `events` list together with the kernel's ITIMER_REAL. -/
structure State where
  events : List schedule_entry
  timer : Option Int
deriving DecidableEq, Repr

/-- Outcomes of the library calls made during one entry point. -/
structure Sys where
  malloc : Nat
  gettimeofday : Option Timeval
  sigprocmask_ok : Bool
  setitimer_ok : Bool
deriving DecidableEq, Repr

/-- What `schedule` / `aschedule` produce: the returned pointer, the new state
and the `it_value` handed to `setitimer` (if it was called). -/
structure Result where
  ret : Nat
  state : State
  itv : Option Timeval
deriving DecidableEq, Repr

/-- What one run of `alarm_handler` produces: the new state, the entries popped
(and freed) by the loop, those whose callback was invoked, in order, and the
`it_value` handed to `setitimer` (if it was called). -/
structure Fired where
  state : State
  freed : List schedule_entry
  invoked : List schedule_entry
  itv : Option Timeval
deriving DecidableEq, Repr

/-- The static `zero` timeval. -/
def zero : Timeval := ⟨0, 0⟩

/-- scheduler.h `TVLESS(a,b)`. -/
def TVLESS (a b : Timeval) : Bool :=
  if a.tv_sec = b.tv_sec then decide (a.tv_usec < b.tv_usec) else decide (a.tv_sec < b.tv_sec)

/-- scheduler.h `TVLESSEQ(a,b)`. -/
def TVLESSEQ (a b : Timeval) : Bool :=
  if a.tv_sec = b.tv_sec then decide (a.tv_usec ≤ b.tv_usec) else decide (a.tv_sec ≤ b.tv_sec)

/-- scheduler.h `TVGT(a,b)`. -/
def TVGT (a b : Timeval) : Bool :=
  if a.tv_sec = b.tv_sec then decide (a.tv_usec > b.tv_usec) else decide (a.tv_sec > b.tv_sec)

/-- The time a timeval denotes, in microseconds. -/
def usecs (t : Timeval) : Int := t.tv_sec * 1000000 + t.tv_usec

/-- A timeval in canonical form as far as its microseconds go. -/
def normalized (t : Timeval) : Prop := 0 ≤ t.tv_usec ∧ t.tv_usec < 1000000

instance (t : Timeval) : Decidable (normalized t) := by
  unfold normalized; infer_instance

/-! ## The operations -/

/-- The value a 64-bit `long` holds after an arithmetic result `x`: `x` itself
when it fits, and `x` reduced modulo 2^64 into the range from -2^63 to 2^63 - 1
when it overflows. -/
def wrap (x : Int) : Int :=
  (x + 9223372036854775808) % 18446744073709551616 - 9223372036854775808

/-- The value fits in a 64-bit `long`. -/
def fits (x : Int) : Prop := -9223372036854775808 ≤ x ∧ x ≤ 9223372036854775807

instance (x : Int) : Decidable (fits x) := by
  unfold fits; infer_instance

/-- Seconds that stay 2^62 away from both ends of the `long` range, so that
sums and differences of two such values do not overflow. -/
def moderate (t : Timeval) : Prop :=
  -4611686018427387904 ≤ t.tv_sec ∧ t.tv_sec < 4611686018427387904

instance (t : Timeval) : Decidable (moderate t) := by
  unfold moderate; infer_instance

/-- scheduler.c lines 157-162: `now + tv` with one carry, in 64-bit
arithmetic. -/
def deadline (now tv : Timeval) : Timeval :=
  let sec := wrap (now.tv_sec + tv.tv_sec)
  let usec := wrap (now.tv_usec + tv.tv_usec)
  if usec ≥ 1000000 then ⟨wrap (sec + 1), wrap (usec - 1000000)⟩ else ⟨sec, usec⟩

/-- The block repeated at scheduler.c lines 98-107, 204-213 and 242-251:
`a - b` with one borrow, replaced by zero when its seconds are negative, in
64-bit arithmetic. -/
def interval (a b : Timeval) : Timeval :=
  let sec := wrap (a.tv_sec - b.tv_sec)
  let usec := wrap (a.tv_usec - b.tv_usec)
  let sec1 := if usec < 0 then wrap (sec - 1) else sec
  let usec1 := if usec < 0 then wrap (usec + 1000000) else usec
  if sec1 < 0 then ⟨0, 0⟩ else ⟨sec1, usec1⟩

/-- POSIX `setitimer(ITIMER_REAL, {it_interval = zero, it_value}, NULL)` made by
an entry point whose clock reading was `now`.  The call fails (timer untouched)
when the system says so or when `it_value` is not in canonical form; a zero
`it_value` disarms the timer; any other value arms it.  What is recorded for an
armed timer is `now + it_value`: the kernel counts `it_value` from the call,
which comes after the clock read, so the timer expires then or later. -/
def setitimer (ok : Bool) (now it_value : Timeval) (timer : Option Int) : Option Int :=
  if ok ∧ 0 ≤ it_value.tv_sec ∧ normalized it_value then
    if it_value = zero then none else some (usecs now + usecs it_value)
  else timer

/-- The scan of scheduler.c lines 177-181.  The first component lists the nodes
walked over (`previous` is its last element, `NULL` when it is empty), the
second is the list starting at `current`. -/
def schedule_scan (new_tv : Timeval) :
    List schedule_entry → List schedule_entry × List schedule_entry
  | [] => ([], [])
  | current :: rest =>
    if TVLESS current.tv new_tv then
      (current :: (schedule_scan new_tv rest).1, (schedule_scan new_tv rest).2)
    else ([], current :: rest)

/-- The function `schedule` of scheduler.c. -/
def schedule (s : State) (tv : Timeval) (func data : Nat) (sys : Sys) : Result :=
  if func = 0 then ⟨0, s, none⟩
  else if sys.malloc = 0 then ⟨0, s, none⟩
  else
    match sys.gettimeofday with
    | none => ⟨0, s, none⟩
    | some now =>
      let new_event : schedule_entry := ⟨sys.malloc, deadline now tv, func, data⟩
      if sys.sigprocmask_ok = false then ⟨0, s, none⟩
      else
        let walked := (schedule_scan new_event.tv s.events).1
        let current := (schedule_scan new_event.tv s.events).2
        let events := walked ++ new_event :: current
        let need_timer := walked.isEmpty
        if need_timer then
          let it_value := interval new_event.tv now
          ⟨new_event.addr, ⟨events, setitimer sys.setitimer_ok now it_value s.timer⟩,
            some it_value⟩
        else ⟨new_event.addr, ⟨events, s.timer⟩, none⟩

/-- The function `aschedule` of scheduler.c; `clock` is its own clock read,
`sys.gettimeofday` the one made afterwards by `schedule`. -/
def aschedule (s : State) (tv : Timeval) (func data : Nat) (clock : Option Timeval)
    (sys : Sys) : Result :=
  match clock with
  | none => ⟨0, s, none⟩
  | some now => schedule s (interval tv now) func data sys

/-- The loop of scheduler.c lines 272-290 of `deschedule`. -/
def deschedule_scan (s : Nat) : List schedule_entry → List schedule_entry
  | [] => []
  | current :: rest =>
    if current.addr = s then rest else current :: deschedule_scan s rest

/-- The function `deschedule` of scheduler.c. -/
def deschedule (st : State) (s : Nat) (sys : Sys) : State :=
  if s = 0 then st
  else if sys.sigprocmask_ok = false then st
  else ⟨deschedule_scan s st.events, st.timer⟩

/-- The loop of scheduler.c lines 80-93: the entries popped, then the list left. -/
def alarm_scan (now : Timeval) :
    List schedule_entry → List schedule_entry × List schedule_entry
  | [] => ([], [])
  | p :: rest =>
    if TVLESSEQ p.tv now then
      (p :: (alarm_scan now rest).1, (alarm_scan now rest).2)
    else ([], p :: rest)

/-- The function `alarm_handler` of scheduler.c. -/
def alarm_handler (s : State) (sys : Sys) : Fired :=
  if sys.sigprocmask_ok = false then ⟨s, [], [], none⟩
  else
    match sys.gettimeofday with
    | none => ⟨s, [], [], none⟩
    | some now =>
      let freed := (alarm_scan now s.events).1
      let events := (alarm_scan now s.events).2
      let invoked := freed.filter (fun p => decide (p.func ≠ 0))
      match events with
      | [] => ⟨⟨[], s.timer⟩, freed, invoked, none⟩
      | head :: rest =>
        let it_value := interval head.tv now
        ⟨⟨head :: rest, setitimer sys.setitimer_ok now it_value s.timer⟩, freed, invoked,
          some it_value⟩

/-- The state left by `init_scheduler`: no events; no timer has been set. -/
def init_scheduler : State := ⟨[], none⟩

/-! ## Runs -/

/-- One step of a run.  `timer_expiry` is the kernel delivering SIGALRM because
the one-shot timer ran out (which leaves it disarmed) ; `alarm_handler` is the
handler run for a SIGALRM from any other origin. -/
inductive Op where
  | schedule (tv : Timeval) (func data : Nat) (sys : Sys)
  | aschedule (tv : Timeval) (func data : Nat) (clock : Option Timeval) (sys : Sys)
  | deschedule (s : Nat) (sys : Sys)
  | alarm_handler (sys : Sys)
  | timer_expiry (sys : Sys)
deriving DecidableEq, Repr

/-- The effect of one step on the state. -/
def step (s : State) : Op → State
  | .schedule tv func data sys => (schedule s tv func data sys).state
  | .aschedule tv func data clock sys => (aschedule s tv func data clock sys).state
  | .deschedule h sys => deschedule s h sys
  | .alarm_handler sys => (alarm_handler s sys).state
  | .timer_expiry sys => (alarm_handler ⟨s.events, none⟩ sys).state

/-- The state after a sequence of steps. -/
def run (s : State) (ops : List Op) : State := ops.foldl step s

/-- The queue is sorted ascending by deadline. -/
def sorted (q : List schedule_entry) : Prop :=
  q.Pairwise (fun a b => TVLESSEQ a.tv b.tv = true)

instance (q : List schedule_entry) : Decidable (sorted q) := by
  unfold sorted; infer_instance

/-- The list `schedule` leaves in `events`: the nodes walked over, the new
node, then the list from `current` on. -/
def enqueue (new_event : schedule_entry) (q : List schedule_entry) : List schedule_entry :=
  (schedule_scan new_event.tv q).1 ++ new_event :: (schedule_scan new_event.tv q).2

/-- The entry a scheduling step creates when its callback is non-null and
every library call it makes before inserting succeeds; `none` for any other
step. -/
def Op.created : Op → Option schedule_entry
  | .schedule tv func data sys =>
    match sys.gettimeofday with
    | some now =>
      if func ≠ 0 ∧ sys.malloc ≠ 0 ∧ sys.sigprocmask_ok = true then
        some ⟨sys.malloc, deadline now tv, func, data⟩
      else none
    | none => none
  | .aschedule tv func data clock sys =>
    match clock, sys.gettimeofday with
    | some now1, some now =>
      if func ≠ 0 ∧ sys.malloc ≠ 0 ∧ sys.sigprocmask_ok = true then
        some ⟨sys.malloc, deadline now (interval tv now1), func, data⟩
      else none
    | _, _ => none
  | _ => none

/-- A clock read that succeeds with canonical microseconds and with seconds
that are not negative and below 2^62. -/
def clock_ok : Option Timeval → Prop
  | some now => normalized now ∧ 0 ≤ now.tv_sec ∧ moderate now
  | none => False

instance (c : Option Timeval) : Decidable (clock_ok c) := by
  cases c <;> unfold clock_ok <;> infer_instance

/-- Every library call the step makes succeeds, the clock readings and the
time passed in have canonical microseconds, and their seconds are small enough
for the arithmetic of the step not to overflow (clock readings from 0 to below
2^62, the time passed in between -2^62 and 2^62). -/
def Op.ok : Op → Prop
  | .schedule tv _ _ sys =>
    sys.malloc ≠ 0 ∧ sys.sigprocmask_ok = true ∧ sys.setitimer_ok = true ∧
      clock_ok sys.gettimeofday ∧ normalized tv ∧ moderate tv
  | .aschedule tv _ _ clock sys =>
    sys.malloc ≠ 0 ∧ sys.sigprocmask_ok = true ∧ sys.setitimer_ok = true ∧
      clock_ok sys.gettimeofday ∧ clock_ok clock ∧ normalized tv ∧ moderate tv
  | .deschedule _ sys => sys.sigprocmask_ok = true
  | .alarm_handler sys =>
    sys.sigprocmask_ok = true ∧ sys.setitimer_ok = true ∧ clock_ok sys.gettimeofday
  | .timer_expiry sys =>
    sys.sigprocmask_ok = true ∧ sys.setitimer_ok = true ∧ clock_ok sys.gettimeofday

instance (op : Op) : Decidable op.ok := by
  cases op <;> unfold Op.ok <;> infer_instance

/-- The step does not ask for a time that has already come: a `schedule` delay
is strictly positive, an `aschedule` time lies strictly after the clock reading
`aschedule` takes. -/
def Op.future : Op → Prop
  | .schedule tv _ _ _ => 0 < usecs tv
  | .aschedule tv _ _ clock _ =>
    match clock with
    | some now => usecs now < usecs tv
    | none => True
  | _ => True

instance (op : Op) : Decidable op.future := by
  cases op with
  | schedule tv func data sys => unfold Op.future; infer_instance
  | aschedule tv func data clock sys =>
    cases clock <;> unfold Op.future <;> infer_instance
  | deschedule x sys => unfold Op.future; infer_instance
  | alarm_handler sys => unfold Op.future; infer_instance
  | timer_expiry sys => unfold Op.future; infer_instance

/-- The time recorded for an armed timer (clock reading plus interval) is not
after the head deadline; the queue is sorted and its deadlines have canonical
microseconds and seconds that fit in a `long`. -/
def timer_covers (s : State) : Prop :=
  sorted s.events ∧ (∀ e ∈ s.events, normalized e.tv ∧ fits e.tv.tv_sec) ∧
  ∀ t ∈ s.timer, ∀ head ∈ s.events.head?, t ≤ usecs head.tv

/-! ## The signal mask -/

/-- What an entry point does to the signal mask, the queue and the timer, in
program order: `block` is a `sigprocmask(SIG_BLOCK, &alarm_sigset, NULL)` that
succeeded, `unblock` the `sigprocmask(SIG_UNBLOCK, &alarm_sigset, NULL)`,
`mutate` a store to `events` or to a `next` link, `arm` a call of `setitimer`. -/
inductive Act where
  | block
  | unblock
  | mutate
  | arm
deriving DecidableEq, Repr

/-- A call into the scheduler made by a callback. -/
inductive Call where
  | schedule (tv : Timeval) (func data : Nat) (sys : Sys)
  | aschedule (tv : Timeval) (func data : Nat) (clock : Option Timeval) (sys : Sys)
  | deschedule (s : Nat) (sys : Sys)
deriving DecidableEq, Repr

/-- The actions of `schedule` (scheduler.c lines 170, 183-191, 218, 224). -/
def schedule_acts (s : State) (tv : Timeval) (func _data : Nat) (sys : Sys) : List Act :=
  if func = 0 then []
  else if sys.malloc = 0 then []
  else
    match sys.gettimeofday with
    | none => []
    | some now =>
      if sys.sigprocmask_ok = false then []
      else
        let need_timer := (schedule_scan (deadline now tv) s.events).1.isEmpty
        if need_timer then [Act.block, Act.mutate, Act.arm, Act.unblock]
        else [Act.block, Act.mutate, Act.unblock]

/-- The actions of `aschedule`: those of the `schedule` call it ends with. -/
def aschedule_acts (s : State) (tv : Timeval) (func data : Nat) (clock : Option Timeval)
    (sys : Sys) : List Act :=
  match clock with
  | none => []
  | some now => schedule_acts s (interval tv now) func data sys

/-- The actions of `deschedule` (scheduler.c lines 265, 275-277, 293). -/
def deschedule_acts (st : State) (s : Nat) (sys : Sys) : List Act :=
  if s = 0 then []
  else if sys.sigprocmask_ok = false then []
  else if s ∈ st.events.map (fun e => e.addr) then [Act.block, Act.mutate, Act.unblock]
  else [Act.block, Act.unblock]

/-- One scheduler call of a callback: the state it leaves and its actions. -/
def call_step (s : State) : Call → State × List Act
  | .schedule tv func data sys =>
    ((schedule s tv func data sys).state, schedule_acts s tv func data sys)
  | .aschedule tv func data clock sys =>
    ((aschedule s tv func data clock sys).state, aschedule_acts s tv func data clock sys)
  | .deschedule x sys => (deschedule s x sys, deschedule_acts s x sys)

/-- The scheduler calls of one callback, in order. -/
def calls_run : State → List Call → State × List Act
  | s, [] => (s, [])
  | s, c :: cs =>
    ((calls_run (call_step s c).1 cs).1, (call_step s c).2 ++ (calls_run (call_step s c).1 cs).2)

/-- The loop of scheduler.c lines 80-93 when the callback `func(data)` makes
the scheduler calls `cb func data`: each round unlinks the head, runs the
callback on the queue so shortened and goes on with the queue the callback
leaves.  `none` when the rounds allowed run out. -/
def alarm_loop (cb : Nat → Nat → List Call) (now : Timeval) :
    Nat → State → Option (State × List Act)
  | 0, _ => none
  | fuel + 1, s =>
    match s.events with
    | [] => some (s, [])
    | p :: rest =>
      if TVLESSEQ p.tv now then
        let r := if p.func ≠ 0 then calls_run ⟨rest, s.timer⟩ (cb p.func p.data)
          else (⟨rest, s.timer⟩, [])
        match alarm_loop cb now fuel r.1 with
        | none => none
        | some r2 => some (r2.1, Act.mutate :: (r.2 ++ r2.2))
      else some (s, [])

/-- The function `alarm_handler` of scheduler.c with callbacks that call back
into the scheduler: the state it leaves and its actions. -/
def alarm_handler_run (cb : Nat → Nat → List Call) (fuel : Nat) (s : State) (sys : Sys) :
    Option (State × List Act) :=
  if sys.sigprocmask_ok = false then some (s, [])
  else
    match sys.gettimeofday with
    | none => some (s, [Act.block, Act.unblock])
    | some now =>
      match alarm_loop cb now fuel s with
      | none => none
      | some r =>
        match r.1.events with
        | [] => some (r.1, Act.block :: (r.2 ++ [Act.unblock]))
        | head :: rest =>
          some (⟨head :: rest,
              setitimer sys.setitimer_ok now (interval head.tv now) r.1.timer⟩,
            Act.block :: (r.2 ++ [Act.arm, Act.unblock]))

/-- Replays a list of actions from a mask state (`true`: SIGALRM is blocked)
and tells whether every `mutate` and every `arm` happens with SIGALRM blocked.
`sigprocmask` keeps one bit per signal: `block` sets it, `unblock` clears it. -/
def guarded : Bool → List Act → Bool
  | _, [] => true
  | _, Act.block :: t => guarded true t
  | _, Act.unblock :: t => guarded false t
  | m, Act.mutate :: t => m && guarded m t
  | m, Act.arm :: t => m && guarded m t

end Scheduler

namespace Scheduler

/-! ## The three comparisons -/

theorem TVLESSEQ_iff (a b : Timeval) : TVLESSEQ a b = true ↔
    (a.tv_sec < b.tv_sec ∨ (a.tv_sec = b.tv_sec ∧ a.tv_usec ≤ b.tv_usec)) := by
  unfold TVLESSEQ
  by_cases h : a.tv_sec = b.tv_sec
  · simp [h]
  · simp only [h, if_false, decide_eq_true_eq, false_and, or_false]
    omega

theorem TVLESS_iff (a b : Timeval) : TVLESS a b = true ↔
    (a.tv_sec < b.tv_sec ∨ (a.tv_sec = b.tv_sec ∧ a.tv_usec < b.tv_usec)) := by
  unfold TVLESS
  by_cases h : a.tv_sec = b.tv_sec
  · simp [h]
  · simp only [h, if_false, decide_eq_true_eq, false_and, or_false]

theorem TVGT_iff (a b : Timeval) : TVGT a b = true ↔
    (b.tv_sec < a.tv_sec ∨ (a.tv_sec = b.tv_sec ∧ b.tv_usec < a.tv_usec)) := by
  unfold TVGT
  by_cases h : a.tv_sec = b.tv_sec
  · simp [h]
  · simp only [h, if_false, decide_eq_true_eq, gt_iff_lt, false_and, or_false]

theorem TVLESSEQ_refl (a : Timeval) : TVLESSEQ a a = true := by
  simp [TVLESSEQ]

theorem TVLESSEQ_trans {a b c : Timeval} (h1 : TVLESSEQ a b = true)
    (h2 : TVLESSEQ b c = true) : TVLESSEQ a c = true := by
  rw [TVLESSEQ_iff] at *
  omega

theorem TVLESSEQ_of_TVLESS {a b : Timeval} (h : TVLESS a b = true) :
    TVLESSEQ a b = true := by
  rw [TVLESSEQ_iff]
  rw [TVLESS_iff] at h
  omega

theorem TVLESS_false_iff (a b : Timeval) : TVLESS a b = false ↔ TVLESSEQ b a = true := by
  rw [← Bool.not_eq_true, TVLESS_iff, TVLESSEQ_iff]
  omega

theorem TVLESSEQ_false_iff (a b : Timeval) : TVLESSEQ a b = false ↔ TVLESS b a = true := by
  rw [← Bool.not_eq_true, TVLESS_iff, TVLESSEQ_iff]
  omega

theorem TVGT_iff_not_TVLESSEQ (a b : Timeval) : TVGT a b = true ↔ TVLESSEQ a b = false := by
  rw [← Bool.not_eq_true, TVGT_iff, TVLESSEQ_iff]
  omega

theorem TVLESS_trans_left {a b c : Timeval} (h1 : TVLESSEQ a b = true)
    (h2 : TVLESS b c = true) : TVLESS a c = true := by
  rw [TVLESSEQ_iff] at h1
  rw [TVLESS_iff] at *
  omega

theorem tv_eq_of_TVLESSEQ {a b : Timeval} (h1 : TVLESSEQ a b = true)
    (h2 : TVLESSEQ b a = true) : a = b := by
  rw [TVLESSEQ_iff] at h1 h2
  cases a; cases b
  simp only [Timeval.mk.injEq] at *
  omega

theorem TVLESSEQ_iff_usecs {a b : Timeval} (ha : normalized a) (hb : normalized b) :
    TVLESSEQ a b = true ↔ usecs a ≤ usecs b := by
  rw [TVLESSEQ_iff]
  unfold usecs
  unfold normalized at ha hb
  omega

/-! ## The insertion scan of `schedule` -/

theorem enqueue_nil (e : schedule_entry) : enqueue e [] = [e] := rfl

theorem enqueue_cons (e c : schedule_entry) (r : List schedule_entry) :
    enqueue e (c :: r) = if TVLESS c.tv e.tv then c :: enqueue e r else e :: c :: r := by
  unfold enqueue
  by_cases h : TVLESS c.tv e.tv = true
  · simp [schedule_scan, h]
  · simp [schedule_scan, h]

theorem schedule_scan_append (t : Timeval) (q : List schedule_entry) :
    (schedule_scan t q).1 ++ (schedule_scan t q).2 = q := by
  induction q with
  | nil => rfl
  | cons c r ih =>
    by_cases h : TVLESS c.tv t = true
    · simp [schedule_scan, h, ih]
    · simp [schedule_scan, h]

theorem schedule_scan_walked (t : Timeval) (q : List schedule_entry) :
    ∀ e ∈ (schedule_scan t q).1, TVLESS e.tv t = true := by
  induction q with
  | nil => intro e he; simp [schedule_scan] at he
  | cons c r ih =>
    intro e he
    by_cases h : TVLESS c.tv t = true
    · simp only [schedule_scan, h, if_true, List.mem_cons] at he
      rcases he with rfl | he
      · exact h
      · exact ih e he
    · simp [schedule_scan, h] at he

theorem schedule_scan_current (t : Timeval) (q : List schedule_entry) :
    ∀ c ∈ (schedule_scan t q).2.head?, TVLESS c.tv t = false := by
  induction q with
  | nil => intro c hc; simp [schedule_scan] at hc
  | cons c r ih =>
    intro x hx
    by_cases h : TVLESS c.tv t = true
    · simp only [schedule_scan, h, if_true] at hx
      exact ih x hx
    · simp only [schedule_scan, h, Bool.false_eq_true, if_false, List.head?_cons,
        Option.mem_def, Option.some.injEq] at hx
      subst hx
      simpa using h

theorem enqueue_perm (e : schedule_entry) (q : List schedule_entry) :
    (enqueue e q).Perm (e :: q) := by
  unfold enqueue
  have h := schedule_scan_append e.tv q
  calc (schedule_scan e.tv q).1 ++ e :: (schedule_scan e.tv q).2
      |>.Perm (e :: ((schedule_scan e.tv q).1 ++ (schedule_scan e.tv q).2)) :=
        List.perm_middle
    _ = e :: q := by rw [h]

theorem mem_enqueue {e x : schedule_entry} {q : List schedule_entry} :
    x ∈ enqueue e q ↔ x = e ∨ x ∈ q := by
  rw [(enqueue_perm e q).mem_iff, List.mem_cons]

theorem enqueue_sorted (e : schedule_entry) (q : List schedule_entry) (h : sorted q) :
    sorted (enqueue e q) := by
  induction q with
  | nil => simp [enqueue_nil, sorted]
  | cons c r ih =>
    have hc : ∀ x ∈ r, TVLESSEQ c.tv x.tv = true := (List.pairwise_cons.mp h).1
    have hr : sorted r := (List.pairwise_cons.mp h).2
    rw [enqueue_cons]
    by_cases hlt : TVLESS c.tv e.tv = true
    · rw [if_pos hlt]
      refine List.pairwise_cons.mpr ⟨?_, ih hr⟩
      intro x hx
      rcases mem_enqueue.mp hx with rfl | hx
      · exact TVLESSEQ_of_TVLESS hlt
      · exact hc x hx
    · rw [if_neg hlt]
      have hle : TVLESSEQ e.tv c.tv = true :=
        (TVLESS_false_iff _ _).mp (by simpa using hlt)
      refine List.pairwise_cons.mpr ⟨?_, h⟩
      intro x hx
      rcases List.mem_cons.mp hx with rfl | hx
      · exact hle
      · exact TVLESSEQ_trans hle (hc x hx)

/-- The queue `schedule` leaves, when it gets as far as inserting. -/
theorem schedule_events (s : State) (tv : Timeval) (func data : Nat) (sys : Sys) :
    (schedule s tv func data sys).state.events = s.events ∨
    ∃ now, sys.gettimeofday = some now ∧ func ≠ 0 ∧ sys.malloc ≠ 0 ∧
      sys.sigprocmask_ok = true ∧
      (schedule s tv func data sys).state.events
        = enqueue ⟨sys.malloc, deadline now tv, func, data⟩ s.events := by
  unfold schedule
  by_cases hf : func = 0
  · simp [hf]
  by_cases hm : sys.malloc = 0
  · simp [hm]
  cases hg : sys.gettimeofday with
  | none => simp
  | some now =>
    by_cases hb : sys.sigprocmask_ok = false
    · simp [hb]
    · right
      have hb1 : sys.sigprocmask_ok = true := by simpa using hb
      refine ⟨now, rfl, hf, hm, hb1, ?_⟩
      simp only [hf, hm, hb1, if_false, Bool.true_eq_false]
      split_ifs <;> rfl

/-! ## The other two scans -/

theorem alarm_scan_append (now : Timeval) (q : List schedule_entry) :
    (alarm_scan now q).1 ++ (alarm_scan now q).2 = q := by
  induction q with
  | nil => rfl
  | cons c r ih =>
    by_cases h : TVLESSEQ c.tv now = true
    · simp [alarm_scan, h, ih]
    · simp [alarm_scan, h]

theorem deschedule_scan_sublist (s : Nat) (q : List schedule_entry) :
    (deschedule_scan s q).Sublist q := by
  induction q with
  | nil => exact List.Sublist.refl _
  | cons c r ih =>
    by_cases h : c.addr = s
    · simp [deschedule_scan, h]
    · simp only [deschedule_scan, h, if_false]
      exact ih.cons₂ c

/-- The queue `alarm_handler` leaves is what its loop leaves, or the queue it
found. -/
theorem alarm_handler_events (s : State) (sys : Sys) :
    (alarm_handler s sys).state.events = s.events ∨
    ∃ now, sys.gettimeofday = some now ∧
      (alarm_handler s sys).state.events = (alarm_scan now s.events).2 := by
  unfold alarm_handler
  by_cases hb : sys.sigprocmask_ok = false
  · simp [hb]
  cases hg : sys.gettimeofday with
  | none => simp
  | some now =>
    right
    have hb1 : sys.sigprocmask_ok = true := by simpa using hb
    refine ⟨now, rfl, ?_⟩
    simp only [hb1, if_false, Bool.true_eq_false]
    generalize (alarm_scan now s.events).2 = l
    cases l <;> rfl

/-! ## Sortedness is an invariant -/

theorem schedule_sorted (s : State) (tv : Timeval) (func data : Nat) (sys : Sys)
    (h : sorted s.events) : sorted (schedule s tv func data sys).state.events := by
  rcases schedule_events s tv func data sys with h1 | ⟨now, _, _, _, _, h1⟩
  · rw [h1]; exact h
  · rw [h1]; exact enqueue_sorted _ _ h

theorem alarm_handler_sorted (s : State) (sys : Sys) (h : sorted s.events) :
    sorted (alarm_handler s sys).state.events := by
  rcases alarm_handler_events s sys with h1 | ⟨now, _, h1⟩
  · rw [h1]; exact h
  · rw [h1]
    have h2 : sorted ((alarm_scan now s.events).1 ++ (alarm_scan now s.events).2) := by
      rw [alarm_scan_append]; exact h
    exact (List.pairwise_append.mp h2).2.1

theorem deschedule_sorted (st : State) (s : Nat) (sys : Sys) (h : sorted st.events) :
    sorted (deschedule st s sys).events := by
  unfold deschedule
  split_ifs
  · exact h
  · exact h
  · exact List.Pairwise.sublist (deschedule_scan_sublist s st.events) h

theorem step_sorted (s : State) (op : Op) (h : sorted s.events) :
    sorted (step s op).events := by
  cases op with
  | schedule tv func data sys => exact schedule_sorted s tv func data sys h
  | aschedule tv func data clock sys =>
    cases clock with
    | none => exact h
    | some now => exact schedule_sorted s _ func data sys h
  | deschedule x sys => exact deschedule_sorted s x sys h
  | alarm_handler sys => exact alarm_handler_sorted s sys h
  | timer_expiry sys => exact alarm_handler_sorted ⟨s.events, none⟩ sys h

theorem run_sorted (ops : List Op) (s : State) (h : sorted s.events) :
    sorted (run s ops).events := by
  induction ops generalizing s with
  | nil => exact h
  | cons op ops ih => exact ih (step s op) (step_sorted s op h)

theorem alarm_handler_freed_append (s : State) (sys : Sys) :
    (alarm_handler s sys).freed ++ (alarm_handler s sys).state.events = s.events := by
  unfold alarm_handler
  cases hb : sys.sigprocmask_ok with
  | false => simp
  | true =>
    cases hg : sys.gettimeofday with
    | none => simp
    | some now =>
      have h := alarm_scan_append now s.events
      simp only [Bool.true_eq_false, if_false]
      generalize (alarm_scan now s.events).2 = l at h
      cases l <;> exact h

theorem alarm_handler_invoked (s : State) (sys : Sys) :
    (alarm_handler s sys).invoked
      = (alarm_handler s sys).freed.filter (fun p => decide (p.func ≠ 0)) := by
  unfold alarm_handler
  cases hb : sys.sigprocmask_ok with
  | false => simp
  | true =>
    cases hg : sys.gettimeofday with
    | none => simp
    | some now =>
      simp only [Bool.true_eq_false, if_false]
      generalize (alarm_scan now s.events).2 = l
      cases l <;> rfl

theorem alarm_handler_invoked_sublist (s : State) (sys : Sys) :
    (alarm_handler s sys).invoked.Sublist s.events := by
  rw [alarm_handler_invoked]
  refine (List.filter_sublist _).trans ?_
  have h := alarm_handler_freed_append s sys
  exact h ▸ List.sublist_append_left _ _

/-! ## What the handler loop pops -/

theorem alarm_scan_freed_due (now : Timeval) (q : List schedule_entry) :
    ∀ e ∈ (alarm_scan now q).1, TVLESSEQ e.tv now = true := by
  induction q with
  | nil => intro e he; simp [alarm_scan] at he
  | cons c r ih =>
    intro e he
    by_cases h : TVLESSEQ c.tv now = true
    · simp only [alarm_scan, h, if_true, List.mem_cons] at he
      rcases he with rfl | he
      · exact h
      · exact ih e he
    · simp [alarm_scan, h] at he

theorem alarm_scan_head_not_due (now : Timeval) (q : List schedule_entry) :
    ∀ c ∈ (alarm_scan now q).2.head?, TVLESSEQ c.tv now = false := by
  induction q with
  | nil => intro c hc; simp [alarm_scan] at hc
  | cons c r ih =>
    intro x hx
    by_cases h : TVLESSEQ c.tv now = true
    · simp only [alarm_scan, h, if_true] at hx
      exact ih x hx
    · simp only [alarm_scan, h, Bool.false_eq_true, if_false, List.head?_cons,
        Option.mem_def, Option.some.injEq] at hx
      subst hx
      simpa using h

/-- On a sorted queue the loop pops exactly the due entries. -/
theorem alarm_scan_of_sorted (now : Timeval) (q : List schedule_entry) (hs : sorted q) :
    (alarm_scan now q).1 = q.filter (fun e => TVLESSEQ e.tv now) ∧
    (alarm_scan now q).2 = q.filter (fun e => TVGT e.tv now) := by
  induction q with
  | nil => exact ⟨rfl, rfl⟩
  | cons c r ih =>
    have hc : ∀ x ∈ r, TVLESSEQ c.tv x.tv = true := (List.pairwise_cons.mp hs).1
    have hr : sorted r := (List.pairwise_cons.mp hs).2
    by_cases h : TVLESSEQ c.tv now = true
    · have hgt : TVGT c.tv now = false := by
        rw [← Bool.not_eq_true, TVGT_iff_not_TVLESSEQ, h]; simp
      simp only [alarm_scan, h, if_true, List.filter_cons, hgt, Bool.false_eq_true, if_false]
      exact ⟨by rw [(ih hr).1], (ih hr).2⟩
    · have h0 : TVLESSEQ c.tv now = false := by simpa using h
      have hgt : TVGT c.tv now = true := (TVGT_iff_not_TVLESSEQ _ _).mpr h0
      have hall : ∀ x ∈ r, TVLESSEQ x.tv now = false := by
        intro x hx
        cases hxn : TVLESSEQ x.tv now with
        | false => rfl
        | true => rw [TVLESSEQ_trans (hc x hx) hxn] at h0; cases h0
      simp only [alarm_scan, h0, Bool.false_eq_true, if_false, List.filter_cons, hgt, if_true]
      refine ⟨?_, ?_⟩
      · symm
        rw [List.filter_eq_nil_iff]
        intro x hx
        rw [hall x hx]; simp
      · congr 1
        symm
        rw [List.filter_eq_self]
        intro x hx
        exact (TVGT_iff_not_TVLESSEQ _ _).mpr (hall x hx)

/-- What a handler run does once the signal is blocked and the clock is read. -/
theorem alarm_handler_ok (s : State) (sys : Sys) (now : Timeval)
    (hb : sys.sigprocmask_ok = true) (hg : sys.gettimeofday = some now) :
    (alarm_handler s sys).freed = (alarm_scan now s.events).1 ∧
    (alarm_handler s sys).state.events = (alarm_scan now s.events).2 := by
  unfold alarm_handler
  simp only [hb, hg, Bool.true_eq_false, if_false]
  generalize (alarm_scan now s.events).2 = l
  cases l <;> exact ⟨rfl, rfl⟩

/-! ## Runs of scheduling calls -/

theorem schedule_events_ok (s : State) (tv : Timeval) (func data : Nat) (sys : Sys)
    (now : Timeval) (hf : func ≠ 0) (hm : sys.malloc ≠ 0)
    (hg : sys.gettimeofday = some now) (hb : sys.sigprocmask_ok = true) :
    (schedule s tv func data sys).state.events
      = enqueue ⟨sys.malloc, deadline now tv, func, data⟩ s.events := by
  unfold schedule
  simp only [hf, hm, hg, hb, if_false, Bool.true_eq_false]
  split_ifs <;> rfl

theorem step_created (s : State) (op : Op) (e : schedule_entry) (h : op.created = some e) :
    (step s op).events = enqueue e s.events ∧ e.func ≠ 0 := by
  cases op with
  | schedule tv func data sys =>
    cases hg : sys.gettimeofday with
    | none => simp [Op.created, hg] at h
    | some now =>
      simp only [Op.created, hg] at h
      split_ifs at h with hc
      cases h
      exact ⟨schedule_events_ok s tv func data sys now hc.1 hc.2.1 hg hc.2.2, hc.1⟩
  | aschedule tv func data clock sys =>
    cases clock with
    | none => simp [Op.created] at h
    | some now1 =>
      cases hg : sys.gettimeofday with
      | none => simp [Op.created, hg] at h
      | some now =>
        simp only [Op.created, hg] at h
        split_ifs at h with hc
        cases h
        exact ⟨schedule_events_ok s _ func data sys now hc.1 hc.2.1 hg hc.2.2, hc.1⟩
  | deschedule x sys => simp [Op.created] at h
  | alarm_handler sys => simp [Op.created] at h
  | timer_expiry sys => simp [Op.created] at h

theorem run_created (ops : List Op) (entries : List schedule_entry) (s : State)
    (h : ops.map Op.created = entries.map some) :
    (run s ops).events.Perm (entries ++ s.events) ∧ ∀ e ∈ entries, e.func ≠ 0 := by
  induction ops generalizing s entries with
  | nil =>
    cases entries with
    | nil => exact ⟨List.Perm.refl _, by simp⟩
    | cons e es => simp at h
  | cons op ops ih =>
    cases entries with
    | nil => simp at h
    | cons e es =>
      simp only [List.map_cons, List.cons.injEq] at h
      have hst := step_created s op e h.1
      have hrec := ih es (step s op) h.2
      refine ⟨?_, ?_⟩
      · have h1 : (run s (op :: ops)).events.Perm (es ++ enqueue e s.events) := by
          have := hrec.1
          rw [hst.1] at this
          exact this
        refine h1.trans ?_
        refine ((List.Perm.refl es).append (enqueue_perm e s.events)).trans ?_
        exact List.perm_middle
      · intro x hx
        rcases List.mem_cons.mp hx with rfl | hx
        · exact hst.2
        · exact hrec.2 x hx

/-! ## Removal by address -/

theorem deschedule_scan_absent (h : Nat) (q : List schedule_entry)
    (hq : h ∉ q.map fun e => e.addr) : deschedule_scan h q = q := by
  induction q with
  | nil => rfl
  | cons c r ih =>
    simp only [List.map_cons, List.mem_cons, not_or] at hq
    have hc : ¬ c.addr = h := fun hc => hq.1 hc.symm
    simp only [deschedule_scan, hc, if_false]
    rw [ih hq.2]

theorem filter_addr_absent (h : Nat) (q : List schedule_entry)
    (hq : h ∉ q.map fun e => e.addr) : q.filter (fun e => decide (e.addr ≠ h)) = q := by
  rw [List.filter_eq_self]
  intro e he
  have : e.addr ≠ h := fun heq => hq (heq ▸ List.mem_map_of_mem (fun e => e.addr) he)
  simpa using this

theorem deschedule_scan_present (h : Nat) (q : List schedule_entry)
    (hd : (q.map fun e => e.addr).Nodup) (hq : h ∈ q.map fun e => e.addr) :
    deschedule_scan h q = q.filter (fun e => decide (e.addr ≠ h)) ∧
    (deschedule_scan h q).length + 1 = q.length := by
  induction q with
  | nil => simp at hq
  | cons c r ih =>
    simp only [List.map_cons, List.nodup_cons] at hd
    by_cases hc : c.addr = h
    · have hr : h ∉ r.map fun e => e.addr := hc ▸ hd.1
      simp only [deschedule_scan, hc, if_true, List.filter_cons, ne_eq, not_true_eq_false,
        decide_False, Bool.false_eq_true, if_false, List.length_cons, and_true]
      exact (filter_addr_absent h r hr).symm
    · have hr : h ∈ r.map fun e => e.addr := by
        simp only [List.map_cons, List.mem_cons] at hq
        rcases hq with hq | hq
        · exact absurd hq.symm hc
        · exact hq
      have := ih hd.2 hr
      simp only [deschedule_scan, hc, if_false, List.filter_cons, ne_eq, not_false_eq_true,
        decide_True, if_true, List.length_cons, this.1, true_and]
      rw [← this.1]
      omega

/-! ## Timer arithmetic -/

theorem wrap_of_fits (x : Int) (h : fits x) : wrap x = x := by
  unfold fits at h
  unfold wrap
  omega

theorem fits_wrap (x : Int) : fits (wrap x) := by
  unfold fits wrap
  omega

theorem fits_of_moderate {a b : Timeval} (ha : moderate a) (hb : moderate b) :
    fits (a.tv_sec + b.tv_sec) ∧ fits (a.tv_sec + b.tv_sec + 1) ∧
    fits (a.tv_sec - b.tv_sec) ∧ fits (a.tv_sec - b.tv_sec - 1) := by
  unfold moderate at ha hb
  unfold fits
  omega

theorem deadline_fits (now tv : Timeval) : fits (deadline now tv).tv_sec := by
  simp only [deadline]
  split_ifs <;> exact fits_wrap _

theorem deadline_normalized (now tv : Timeval) (hn : normalized now) (ht : normalized tv) :
    normalized (deadline now tv) := by
  have h1 : wrap (now.tv_usec + tv.tv_usec) = now.tv_usec + tv.tv_usec :=
    wrap_of_fits _ (by unfold normalized at hn ht; unfold fits; omega)
  have h2 : wrap (now.tv_usec + tv.tv_usec - 1000000) = now.tv_usec + tv.tv_usec - 1000000 :=
    wrap_of_fits _ (by unfold normalized at hn ht; unfold fits; omega)
  simp only [normalized, deadline, h1, h2] at *
  split_ifs <;> simp only <;> omega

/-- The carry block is exact when the sum of the seconds fits in a `long`, and
so does that sum plus one in case the microseconds carry. -/
theorem deadline_exact (now tv : Timeval) (hn : normalized now) (ht : normalized tv)
    (h1 : fits (now.tv_sec + tv.tv_sec))
    (h2 : 1000000 ≤ now.tv_usec + tv.tv_usec → fits (now.tv_sec + tv.tv_sec + 1)) :
    usecs (deadline now tv) = usecs now + usecs tv := by
  have e1 : wrap (now.tv_usec + tv.tv_usec) = now.tv_usec + tv.tv_usec :=
    wrap_of_fits _ (by unfold normalized at hn ht; unfold fits; omega)
  have e2 : wrap (now.tv_usec + tv.tv_usec - 1000000) = now.tv_usec + tv.tv_usec - 1000000 :=
    wrap_of_fits _ (by unfold normalized at hn ht; unfold fits; omega)
  have e3 := wrap_of_fits _ h1
  by_cases hc : 1000000 ≤ now.tv_usec + tv.tv_usec
  · have e4 := wrap_of_fits _ (h2 hc)
    simp only [deadline, usecs, e1, e2, e3, e4, ge_iff_le, hc, if_true]
    omega
  · simp only [deadline, usecs, e1, e3, ge_iff_le, hc, if_false]
    omega

/-- The carry block is exact when the sum of the seconds, and that sum plus
one, fit in a `long`. -/
theorem deadline_usecs (now tv : Timeval) (hn : normalized now) (ht : normalized tv)
    (h1 : fits (now.tv_sec + tv.tv_sec)) (h2 : fits (now.tv_sec + tv.tv_sec + 1)) :
    usecs (deadline now tv) = usecs now + usecs tv :=
  deadline_exact now tv hn ht h1 (fun _ => h2)

/-- The interval block always yields canonical microseconds and seconds that
are not negative. -/
theorem interval_canonical (a b : Timeval) (ha : normalized a) (hb : normalized b) :
    normalized (interval a b) ∧ 0 ≤ (interval a b).tv_sec ∧ fits (interval a b).tv_sec := by
  have e1 : wrap (a.tv_usec - b.tv_usec) = a.tv_usec - b.tv_usec :=
    wrap_of_fits _ (by unfold normalized at ha hb; unfold fits; omega)
  have e2 : wrap (a.tv_usec - b.tv_usec + 1000000) = a.tv_usec - b.tv_usec + 1000000 :=
    wrap_of_fits _ (by unfold normalized at ha hb; unfold fits; omega)
  have f1 := fits_wrap (a.tv_sec - b.tv_sec)
  have f2 := fits_wrap (wrap (a.tv_sec - b.tv_sec) - 1)
  simp only [normalized, interval, e1, e2, fits] at *
  generalize wrap (a.tv_sec - b.tv_sec) = s at f1 f2 ⊢
  generalize wrap (s - 1) = s1 at f2 ⊢
  split_ifs <;> refine ⟨?_, ?_, ?_⟩ <;> simp only <;> omega

/-- The interval block on timevals with canonical microseconds, when the
difference of the seconds, and that difference minus one, fit in a `long`: the
exact difference when it is not negative, zero otherwise; always in canonical
form. -/
theorem interval_spec (a b : Timeval) (ha : normalized a) (hb : normalized b)
    (h1 : fits (a.tv_sec - b.tv_sec)) (h2 : fits (a.tv_sec - b.tv_sec - 1)) :
    normalized (interval a b) ∧ 0 ≤ (interval a b).tv_sec ∧
    (usecs b ≤ usecs a → usecs (interval a b) = usecs a - usecs b) ∧
    (usecs a < usecs b → interval a b = zero) := by
  have e1 : wrap (a.tv_usec - b.tv_usec) = a.tv_usec - b.tv_usec :=
    wrap_of_fits _ (by unfold normalized at ha hb; unfold fits; omega)
  have e2 : wrap (a.tv_usec - b.tv_usec + 1000000) = a.tv_usec - b.tv_usec + 1000000 :=
    wrap_of_fits _ (by unfold normalized at ha hb; unfold fits; omega)
  have e3 := wrap_of_fits _ h1
  have e4 := wrap_of_fits _ h2
  simp only [normalized, interval, usecs, zero, e1, e2, e3, e4] at *
  split_ifs <;> refine ⟨?_, ?_, ?_, ?_⟩ <;> simp only [Timeval.mk.injEq] <;>
    first | omega | (intro; trivial)

/-- The seconds of a deadline computed without overflow, relative to the clock
reading: the seconds of the delay, or one more. -/
theorem deadline_sec (now tv : Timeval) (hn : normalized now) (ht : normalized tv)
    (h1 : fits (now.tv_sec + tv.tv_sec)) (h2 : fits (now.tv_sec + tv.tv_sec + 1)) :
    (deadline now tv).tv_sec - now.tv_sec = tv.tv_sec ∨
    (deadline now tv).tv_sec - now.tv_sec = tv.tv_sec + 1 := by
  have e1 : wrap (now.tv_usec + tv.tv_usec) = now.tv_usec + tv.tv_usec :=
    wrap_of_fits _ (by unfold normalized at hn ht; unfold fits; omega)
  have e3 := wrap_of_fits _ h1
  have e4 := wrap_of_fits _ h2
  simp only [deadline, e1, e3, e4]
  split_ifs <;> simp only <;> omega

/-- The timer and the `setitimer` argument after a handler run that blocked the
signal and read the clock. -/
theorem alarm_handler_timer (s : State) (sys : Sys) (now : Timeval)
    (hb : sys.sigprocmask_ok = true) (hg : sys.gettimeofday = some now) :
    ((alarm_scan now s.events).2 = [] →
      (alarm_handler s sys).itv = none ∧ (alarm_handler s sys).state.timer = s.timer) ∧
    (∀ head ∈ (alarm_scan now s.events).2.head?,
      (alarm_handler s sys).itv = some (interval head.tv now) ∧
      (alarm_handler s sys).state.timer
        = setitimer sys.setitimer_ok now (interval head.tv now) s.timer) := by
  unfold alarm_handler
  simp only [hb, hg, Bool.true_eq_false, if_false]
  generalize (alarm_scan now s.events).2 = l
  cases l with
  | nil => exact ⟨fun _ => ⟨rfl, rfl⟩, by simp⟩
  | cons c r =>
    refine ⟨by simp, ?_⟩
    intro head hh
    simp only [List.head?_cons, Option.mem_def, Option.some.injEq] at hh
    subst hh
    exact ⟨rfl, rfl⟩

/-- What a `schedule` call does once its callback is non-null, the node is
allocated, the clock is read and the signal is blocked. -/
theorem schedule_ok (s : State) (tv : Timeval) (func data : Nat) (sys : Sys)
    (now : Timeval) (hf : func ≠ 0) (hm : sys.malloc ≠ 0)
    (hg : sys.gettimeofday = some now) (hb : sys.sigprocmask_ok = true) :
    (schedule s tv func data sys).ret = sys.malloc ∧
    ((schedule_scan (deadline now tv) s.events).1 = [] →
      (schedule s tv func data sys).itv = some (interval (deadline now tv) now) ∧
      (schedule s tv func data sys).state.timer
        = setitimer sys.setitimer_ok now (interval (deadline now tv) now) s.timer) ∧
    ((schedule_scan (deadline now tv) s.events).1 ≠ [] →
      (schedule s tv func data sys).itv = none ∧
      (schedule s tv func data sys).state.timer = s.timer) := by
  unfold schedule
  simp only [hf, hm, hg, hb, if_false, Bool.true_eq_false]
  cases hw : (schedule_scan (deadline now tv) s.events).1 with
  | nil => simp
  | cons c r => simp

/-- The head of the queue after an insertion is the new node exactly when the
scan walked over nothing. -/
theorem enqueue_head (e : schedule_entry) (q : List schedule_entry) :
    (enqueue e q).head? = some e ↔ (schedule_scan e.tv q).1 = [] := by
  unfold enqueue
  cases hw : (schedule_scan e.tv q).1 with
  | nil => simp
  | cons c r =>
    have hc : TVLESS c.tv e.tv = true :=
      schedule_scan_walked e.tv q c (by rw [hw]; exact List.mem_cons_self _ _)
    simp only [List.cons_append, List.head?_cons, Option.some.injEq, reduceCtorEq, iff_false]
    intro hce
    rw [hce, TVLESS_iff] at hc
    omega

/-- After a handler run that blocked the signal and read the clock, with
canonical microseconds throughout, a clock reading that is not before the epoch
and queued seconds that fit in a `long`: no `setitimer` call when the queue is
left empty, otherwise a call whose interval is exactly the head deadline minus
`now`, which is positive. -/
theorem alarm_handler_rearm_spec (s : State) (sys : Sys) (now : Timeval)
    (hb : sys.sigprocmask_ok = true) (hg : sys.gettimeofday = some now)
    (hn : normalized now) (hq : ∀ e ∈ s.events, normalized e.tv)
    (hn0 : 0 ≤ now.tv_sec) (hqf : ∀ e ∈ s.events, fits e.tv.tv_sec) :
    ((alarm_handler s sys).state.events = [] →
      (alarm_handler s sys).itv = none ∧ (alarm_handler s sys).state.timer = s.timer) ∧
    (∀ head ∈ (alarm_handler s sys).state.events.head?,
      ∃ v, (alarm_handler s sys).itv = some v ∧
        usecs v = usecs head.tv - usecs now ∧ 0 < usecs v ∧
        0 ≤ v.tv_sec ∧ 0 ≤ v.tv_usec ∧ v.tv_usec < 1000000 ∧
        (sys.setitimer_ok = true →
          (alarm_handler s sys).state.timer = some (usecs head.tv)) ∧
        (sys.setitimer_ok = false → (alarm_handler s sys).state.timer = s.timer)) := by
  have hok := alarm_handler_ok s sys now hb hg
  have htm := alarm_handler_timer s sys now hb hg
  rw [hok.2]
  refine ⟨htm.1, fun head hh => ?_⟩
  have hhead := htm.2 head hh
  have hnd := alarm_scan_head_not_due now s.events head hh
  have hmem : head ∈ s.events := by
    have h1 : head ∈ (alarm_scan now s.events).2 := List.mem_of_mem_head? hh
    have h2 := alarm_scan_append now s.events
    rw [← h2]
    exact List.mem_append_right _ h1
  have hhn : normalized head.tv := hq head hmem
  have hlt : usecs now < usecs head.tv := by
    have h1 : ¬ (usecs head.tv ≤ usecs now) := by
      rw [← TVLESSEQ_iff_usecs hhn hn, hnd]; simp
    omega
  have hhf : fits head.tv.tv_sec := hqf head hmem
  have hfit : fits (head.tv.tv_sec - now.tv_sec) ∧ fits (head.tv.tv_sec - now.tv_sec - 1) := by
    simp only [usecs, normalized, fits] at *
    omega
  have hsp := interval_spec head.tv now hhn hn hfit.1 hfit.2
  have hval := hsp.2.2.1 (le_of_lt hlt)
  have hnz : interval head.tv now ≠ zero := by
    intro hz
    rw [hz] at hval
    simp only [usecs, zero] at hval hlt
    omega
  refine ⟨interval head.tv now, hhead.1, hval, by omega, hsp.2.1, hsp.1.1, hsp.1.2, ?_, ?_⟩
  · intro hok2
    rw [hhead.2]
    unfold setitimer
    rw [if_pos ⟨hok2, hsp.2.1, hsp.1⟩, if_neg hnz, hval]
    congr 1
    omega
  · intro hok2
    rw [hhead.2]
    unfold setitimer
    rw [if_neg]
    rw [hok2]
    simp

/-! ## The timer invariant -/

theorem schedule_state_cases (s : State) (tv : Timeval) (func data : Nat) (sys : Sys) :
    (schedule s tv func data sys).state = s ∨
    ∃ now, sys.gettimeofday = some now ∧ func ≠ 0 ∧ sys.malloc ≠ 0 ∧
      sys.sigprocmask_ok = true := by
  by_cases hf : func = 0
  · left; simp [schedule, hf]
  by_cases hm : sys.malloc = 0
  · left; simp [schedule, hm]
  cases hg : sys.gettimeofday with
  | none => left; simp [schedule, hg]
  | some now =>
    cases hb : sys.sigprocmask_ok with
    | false => left; simp [schedule, hg, hb]
    | true => exact Or.inr ⟨now, rfl, hf, hm, rfl⟩

theorem enqueue_head_of_walked (e : schedule_entry) (q : List schedule_entry)
    (hw : (schedule_scan e.tv q).1 ≠ []) : (enqueue e q).head? = q.head? := by
  have happ := schedule_scan_append e.tv q
  unfold enqueue
  cases hw1 : (schedule_scan e.tv q).1 with
  | nil => exact absurd hw1 hw
  | cons c r =>
    have hq : q.head? = some c := by
      rw [← happ, hw1]; rfl
    rw [hq]; rfl

theorem schedule_scan_nil_of_nil (t : Timeval) : (schedule_scan t []).1 = [] := rfl

theorem head_le_of_sorted (q : List schedule_entry) (hs : sorted q)
    (hn : ∀ e ∈ q, normalized e.tv) :
    ∀ hd ∈ q.head?, ∀ x ∈ q, usecs hd.tv ≤ usecs x.tv := by
  intro hd hh x hx
  cases q with
  | nil => simp at hh
  | cons c r =>
    simp only [List.head?_cons, Option.mem_def, Option.some.injEq] at hh
    subst hh
    rcases List.mem_cons.mp hx with rfl | hx1
    · exact le_refl _
    · exact (TVLESSEQ_iff_usecs (hn c (List.mem_cons_self _ _)) (hn x hx)).mp
        ((List.pairwise_cons.mp hs).1 x hx1)

/-- The arithmetic of one `schedule` call in which nothing overflows: the
stored deadline is exact, and so is the interval handed to `setitimer`. -/
theorem schedule_arith_fits (now tv : Timeval) (hn : normalized now) (ht : normalized tv)
    (h1 : fits (now.tv_sec + tv.tv_sec)) (h2 : fits (now.tv_sec + tv.tv_sec + 1))
    (h3 : fits (tv.tv_sec - 1)) (h4 : fits (tv.tv_sec + 1)) :
    usecs (deadline now tv) = usecs now + usecs tv ∧
    normalized (interval (deadline now tv) now) ∧
    0 ≤ (interval (deadline now tv) now).tv_sec ∧
    (0 ≤ usecs tv → usecs (interval (deadline now tv) now) = usecs tv) ∧
    (usecs tv < 0 → interval (deadline now tv) now = zero) := by
  have hdu := deadline_usecs now tv hn ht h1 h2
  have hdn := deadline_normalized now tv hn ht
  have hds := deadline_sec now tv hn ht h1 h2
  have hfit : fits ((deadline now tv).tv_sec - now.tv_sec) ∧
      fits ((deadline now tv).tv_sec - now.tv_sec - 1) := by
    unfold fits at h3 h4 ⊢
    omega
  have hsp := interval_spec (deadline now tv) now hdn hn hfit.1 hfit.2
  refine ⟨hdu, hsp.1, hsp.2.1, fun h0 => ?_, fun h0 => hsp.2.2.2 (by omega)⟩
  have := hsp.2.2.1 (by omega)
  omega

/-- The arithmetic of one `schedule` call on moderate inputs. -/
theorem schedule_arith (now tv : Timeval) (hn : normalized now) (ht : normalized tv)
    (hmn : moderate now) (hmt : moderate tv) :
    usecs (deadline now tv) = usecs now + usecs tv ∧
    normalized (interval (deadline now tv) now) ∧
    0 ≤ (interval (deadline now tv) now).tv_sec ∧
    (0 ≤ usecs tv → usecs (interval (deadline now tv) now) = usecs tv) ∧
    (usecs tv < 0 → interval (deadline now tv) now = zero) := by
  have hf := fits_of_moderate hmn hmt
  refine schedule_arith_fits now tv hn ht hf.1 hf.2.1 ?_ ?_
  · unfold moderate at hmt; unfold fits; omega
  · unfold moderate at hmt; unfold fits; omega

/-- The clamped delay `aschedule` hands to `schedule`, on moderate inputs. -/
theorem aschedule_arith (tv now1 : Timeval) (ht : normalized tv) (hn1 : normalized now1)
    (hmt : moderate tv) (hm1 : moderate now1) (h0 : 0 ≤ now1.tv_sec) :
    normalized (interval tv now1) ∧ moderate (interval tv now1) ∧
    (usecs now1 ≤ usecs tv → usecs (interval tv now1) = usecs tv - usecs now1) := by
  have hf := fits_of_moderate hmt hm1
  have hsp := interval_spec tv now1 ht hn1 hf.2.2.1 hf.2.2.2
  refine ⟨hsp.1, ?_, hsp.2.2.1⟩
  by_cases hle : usecs now1 ≤ usecs tv
  · have hv := hsp.2.2.1 hle
    have h1 := hsp.1
    have h2 := hsp.2.1
    simp only [usecs, normalized, moderate] at *
    omega
  · rw [hsp.2.2.2 (by omega)]
    simp [moderate, zero]

theorem schedule_covers (s : State) (tv : Timeval) (func data : Nat) (sys : Sys)
    (hs : sys.setitimer_ok = true) (hc : clock_ok sys.gettimeofday) (ht : normalized tv)
    (hmt : moderate tv)
    (h : timer_covers s) : timer_covers (schedule s tv func data sys).state := by
  rcases schedule_state_cases s tv func data sys with h1 | ⟨now, hg, hf, hm, hb⟩
  · rw [h1]; exact h
  · have hcn : normalized now ∧ 0 ≤ now.tv_sec ∧ moderate now := by rw [hg] at hc; exact hc
    have hn := hcn.1
    have hev := schedule_events_ok s tv func data sys now hf hm hg hb
    have hok := schedule_ok s tv func data sys now hf hm hg hb
    have hdn := deadline_normalized now tv hn ht
    have har := schedule_arith now tv hn ht hcn.2.2 hmt
    refine ⟨by rw [hev]; exact enqueue_sorted _ _ h.1, ?_, ?_⟩
    · intro e he
      rw [hev] at he
      rcases mem_enqueue.mp he with rfl | he
      · exact ⟨hdn, deadline_fits now tv⟩
      · exact h.2.1 e he
    · intro t htm head hh
      simp only [Option.mem_def] at htm hh
      by_cases hw : (schedule_scan (deadline now tv) s.events).1 = []
      · rw [(hok.2.1 hw).2] at htm
        rw [hev, (enqueue_head ⟨sys.malloc, deadline now tv, func, data⟩ s.events).mpr hw] at hh
        cases hh
        unfold setitimer at htm
        rw [if_pos ⟨hs, har.2.2.1, har.2.1⟩] at htm
        by_cases hz : interval (deadline now tv) now = zero
        · rw [if_pos hz] at htm; cases htm
        · rw [if_neg hz] at htm
          have hle : 0 ≤ usecs tv := by
            by_contra hlt
            exact hz (har.2.2.2.2 (by omega))
          have hv := har.2.2.2.1 hle
          have hdu := har.1
          simp only [Option.some.injEq] at htm
          show t ≤ usecs (deadline now tv)
          omega
      · rw [(hok.2.2 hw).2] at htm
        rw [hev, enqueue_head_of_walked ⟨sys.malloc, deadline now tv, func, data⟩ s.events hw]
          at hh
        exact h.2.2 t htm head hh

theorem schedule_armed (s : State) (tv : Timeval) (func data : Nat) (sys : Sys)
    (hs : sys.setitimer_ok = true) (hc : clock_ok sys.gettimeofday) (ht : normalized tv)
    (hmt : moderate tv)
    (hfut : 0 < usecs tv) (h : s.events ≠ [] → s.timer ≠ none) :
    (schedule s tv func data sys).state.events ≠ [] →
      (schedule s tv func data sys).state.timer ≠ none := by
  rcases schedule_state_cases s tv func data sys with h1 | ⟨now, hg, hf, hm, hb⟩
  · rw [h1]; exact h
  · intro _
    have hcn : normalized now ∧ 0 ≤ now.tv_sec ∧ moderate now := by rw [hg] at hc; exact hc
    have hn := hcn.1
    have hok := schedule_ok s tv func data sys now hf hm hg hb
    have har := schedule_arith now tv hn ht hcn.2.2 hmt
    by_cases hw : (schedule_scan (deadline now tv) s.events).1 = []
    · rw [(hok.2.1 hw).2]
      have hv := har.2.2.2.1 (le_of_lt hfut)
      have hz : interval (deadline now tv) now ≠ zero := by
        intro hz
        rw [hz] at hv
        simp only [usecs, zero] at hv hfut
        omega
      unfold setitimer
      rw [if_pos ⟨hs, har.2.2.1, har.2.1⟩, if_neg hz]
      simp
    · rw [(hok.2.2 hw).2]
      apply h
      intro hq
      rw [hq] at hw
      exact hw (schedule_scan_nil_of_nil _)

theorem deschedule_covers (st : State) (x : Nat) (sys : Sys) (h : timer_covers st) :
    timer_covers (deschedule st x sys) := by
  unfold deschedule
  split_ifs
  · exact h
  · exact h
  · have hsub := deschedule_scan_sublist x st.events
    refine ⟨List.Pairwise.sublist hsub h.1, fun e he => h.2.1 e (hsub.subset he), ?_⟩
    intro t htm head hh
    have hmem : head ∈ st.events := hsub.subset (List.mem_of_mem_head? hh)
    cases hq : st.events with
    | nil => rw [hq] at hmem; simp at hmem
    | cons c r =>
      have hc : c ∈ st.events.head? := by rw [hq]; simp
      have h1 := h.2.2 t htm c hc
      have h2 := head_le_of_sorted st.events h.1 (fun e he => (h.2.1 e he).1) c hc head hmem
      omega

theorem deschedule_armed (st : State) (x : Nat) (sys : Sys)
    (h : st.events ≠ [] → st.timer ≠ none) :
    (deschedule st x sys).events ≠ [] → (deschedule st x sys).timer ≠ none := by
  unfold deschedule
  split_ifs
  · exact h
  · exact h
  · intro hne
    apply h
    intro hq
    apply hne
    show deschedule_scan x st.events = []
    rw [hq]; rfl

theorem alarm_handler_covers (s : State) (sys : Sys) (hb : sys.sigprocmask_ok = true)
    (hs : sys.setitimer_ok = true) (hc : clock_ok sys.gettimeofday)
    (hsort : sorted s.events)
    (hnorm : ∀ e ∈ s.events, normalized e.tv ∧ fits e.tv.tv_sec) :
    timer_covers (alarm_handler s sys).state ∧
    ((alarm_handler s sys).state.events ≠ [] → (alarm_handler s sys).state.timer ≠ none) := by
  cases hg : sys.gettimeofday with
  | none => rw [hg] at hc; exact absurd hc (by simp [clock_ok])
  | some now =>
    have hcn : normalized now ∧ 0 ≤ now.tv_sec ∧ moderate now := by rw [hg] at hc; exact hc
    have hr := alarm_handler_rearm_spec s sys now hb hg hcn.1 (fun e he => (hnorm e he).1)
      hcn.2.1 (fun e he => (hnorm e he).2)
    have happ := alarm_handler_freed_append s sys
    refine ⟨⟨alarm_handler_sorted s sys hsort, ?_, ?_⟩, ?_⟩
    · intro e he
      apply hnorm
      rw [← happ]
      exact List.mem_append_right _ he
    · intro t htm head hh
      obtain ⟨v, _, _, _, _, _, _, harm, _⟩ := hr.2 head hh
      rw [harm hs] at htm
      simp only [Option.mem_def, Option.some.injEq] at htm
      omega
    · intro hne
      cases hq : (alarm_handler s sys).state.events with
      | nil => exact absurd hq hne
      | cons c r =>
        obtain ⟨v, _, _, _, _, _, _, harm, _⟩ := hr.2 c (by rw [hq]; simp)
        rw [harm hs]
        simp

theorem step_covers (s : State) (op : Op) (hok : op.ok) (h : timer_covers s) :
    timer_covers (step s op) := by
  cases op with
  | schedule tv func data sys =>
    exact schedule_covers s tv func data sys hok.2.2.1 hok.2.2.2.1 hok.2.2.2.2.1
      hok.2.2.2.2.2 h
  | aschedule tv func data clock sys =>
    cases clock with
    | none => exact h
    | some now1 =>
      have hc1 : normalized now1 ∧ 0 ≤ now1.tv_sec ∧ moderate now1 := hok.2.2.2.2.1
      have har := aschedule_arith tv now1 hok.2.2.2.2.2.1 hc1.1 hok.2.2.2.2.2.2 hc1.2.2
        hc1.2.1
      exact schedule_covers s _ func data sys hok.2.2.1 hok.2.2.2.1 har.1 har.2.1 h
  | deschedule x sys => exact deschedule_covers s x sys h
  | alarm_handler sys =>
    exact (alarm_handler_covers s sys hok.1 hok.2.1 hok.2.2 h.1 h.2.1).1
  | timer_expiry sys =>
    exact (alarm_handler_covers ⟨s.events, none⟩ sys hok.1 hok.2.1 hok.2.2 h.1 h.2.1).1

theorem step_armed (s : State) (op : Op) (hok : op.ok) (hfut : op.future)
    (hcov : timer_covers s) (h : s.events ≠ [] → s.timer ≠ none) :
    (step s op).events ≠ [] → (step s op).timer ≠ none := by
  cases op with
  | schedule tv func data sys =>
    exact schedule_armed s tv func data sys hok.2.2.1 hok.2.2.2.1 hok.2.2.2.2.1
      hok.2.2.2.2.2 hfut h
  | aschedule tv func data clock sys =>
    cases clock with
    | none => exact h
    | some now1 =>
      have hc1 : normalized now1 ∧ 0 ≤ now1.tv_sec ∧ moderate now1 := hok.2.2.2.2.1
      have har := aschedule_arith tv now1 hok.2.2.2.2.2.1 hc1.1 hok.2.2.2.2.2.2 hc1.2.2
        hc1.2.1
      have hlt : usecs now1 < usecs tv := hfut
      have hv := har.2.2 (le_of_lt hlt)
      exact schedule_armed s _ func data sys hok.2.2.1 hok.2.2.2.1 har.1 har.2.1
        (by omega) h
  | deschedule x sys => exact deschedule_armed s x sys h
  | alarm_handler sys =>
    exact (alarm_handler_covers s sys hok.1 hok.2.1 hok.2.2 hcov.1 hcov.2.1).2
  | timer_expiry sys =>
    exact (alarm_handler_covers ⟨s.events, none⟩ sys hok.1 hok.2.1 hok.2.2 hcov.1 hcov.2.1).2

theorem run_covers (ops : List Op) (s : State) (hok : ∀ op ∈ ops, op.ok)
    (h : timer_covers s) : timer_covers (run s ops) := by
  induction ops generalizing s with
  | nil => exact h
  | cons op ops ih =>
    exact ih (step s op) (fun o ho => hok o (List.mem_cons_of_mem _ ho))
      (step_covers s op (hok op (List.mem_cons_self _ _)) h)

theorem run_armed (ops : List Op) (s : State) (hok : ∀ op ∈ ops, op.ok)
    (hfut : ∀ op ∈ ops, op.future) (hcov : timer_covers s)
    (h : s.events ≠ [] → s.timer ≠ none) :
    (run s ops).events ≠ [] → (run s ops).timer ≠ none := by
  induction ops generalizing s with
  | nil => exact h
  | cons op ops ih =>
    exact ih (step s op) (fun o ho => hok o (List.mem_cons_of_mem _ ho))
      (fun o ho => hfut o (List.mem_cons_of_mem _ ho))
      (step_covers s op (hok op (List.mem_cons_self _ _)) hcov)
      (step_armed s op (hok op (List.mem_cons_self _ _)) (hfut op (List.mem_cons_self _ _))
        hcov h)

/-- On an empty queue, a successful `schedule` with a zero or negative delay
(moderate seconds, so that nothing overflows) queues the entry and hands
`setitimer` the interval zero, so the timer ends up disarmed. -/
theorem schedule_past_disarms (s : State) (tv : Timeval) (func data : Nat) (sys : Sys)
    (now : Timeval) (hq : s.events = []) (hf : func ≠ 0) (hm : sys.malloc ≠ 0)
    (hg : sys.gettimeofday = some now) (hb : sys.sigprocmask_ok = true)
    (hs : sys.setitimer_ok = true) (hn : normalized now) (ht : normalized tv)
    (hmn : moderate now) (hmt : moderate tv)
    (hpast : usecs tv ≤ 0) :
    (schedule s tv func data sys).ret = sys.malloc ∧
    (schedule s tv func data sys).state.events = [⟨sys.malloc, deadline now tv, func, data⟩] ∧
    (schedule s tv func data sys).itv = some zero ∧
    (schedule s tv func data sys).state.timer = none := by
  have hok := schedule_ok s tv func data sys now hf hm hg hb
  have hev := schedule_events_ok s tv func data sys now hf hm hg hb
  have hw : (schedule_scan (deadline now tv) s.events).1 = [] := by rw [hq]; rfl
  have har := schedule_arith now tv hn ht hmn hmt
  have hz : interval (deadline now tv) now = zero := by
    by_cases hlt : usecs tv < 0
    · exact har.2.2.2.2 hlt
    · have hv := har.2.2.2.1 (by omega)
      have h1 := har.2.1
      have h2 := har.2.2.1
      generalize interval (deadline now tv) now = v at hv h1 h2
      cases v with
      | mk sec usec =>
        simp only [usecs, normalized, zero, Timeval.mk.injEq] at *
        omega
  refine ⟨hok.1, by rw [hev, hq]; rfl, by rw [(hok.2.1 hw).1, hz], ?_⟩
  rw [(hok.2.1 hw).2, hz]
  simp [setitimer, hs, zero, normalized]

/-! ## Claims -/

/-- C1: in every state reachable from `init_scheduler` by `schedule`,
`aschedule`, `deschedule` and `alarm_handler` steps the event queue is sorted
ascending by deadline under the (tv_sec, tv_usec) comparison, so the head of a
non-empty queue has the smallest deadline of all its members; and `schedule`
run on any sorted queue leaves a sorted queue. -/
theorem reachable_queue_sorted :
    (∀ ops : List Op,
      sorted (run init_scheduler ops).events ∧
      ∀ head ∈ (run init_scheduler ops).events.head?,
        ∀ e ∈ (run init_scheduler ops).events,
          TVLESSEQ head.tv e.tv = true ∧ TVLESS e.tv head.tv = false) ∧
    (∀ (s : State) (tv : Timeval) (func data : Nat) (sys : Sys),
      sorted s.events → sorted (schedule s tv func data sys).state.events) := by
  refine ⟨fun ops => ?_, fun s tv func data sys h => schedule_sorted s tv func data sys h⟩
  have hs : sorted (run init_scheduler ops).events :=
    run_sorted ops init_scheduler List.Pairwise.nil
  refine ⟨hs, ?_⟩
  generalize (run init_scheduler ops).events = q at hs
  intro head hh e he
  cases q with
  | nil => simp at hh
  | cons c r =>
    simp only [List.head?_cons, Option.mem_def, Option.some.injEq] at hh
    subst hh
    have hle : TVLESSEQ c.tv e.tv = true := by
      rcases List.mem_cons.mp he with rfl | he
      · exact TVLESSEQ_refl _
      · exact (List.pairwise_cons.mp hs).1 e he
    exact ⟨hle, (TVLESS_false_iff _ _).mpr hle⟩

/-- Witness for C1: three `schedule` calls whose deadlines arrive out of order,
a `deschedule` and a handler run leave a sorted two-element queue, and one more
`schedule` keeps it sorted. -/
theorem reachable_queue_sorted_witness :
    (run init_scheduler
        [Op.schedule ⟨5, 0⟩ 1 0 ⟨100, some ⟨10, 0⟩, true, true⟩,
         Op.schedule ⟨2, 0⟩ 2 0 ⟨101, some ⟨10, 0⟩, true, true⟩,
         Op.schedule ⟨9, 0⟩ 3 0 ⟨102, some ⟨10, 0⟩, true, true⟩,
         Op.deschedule 100 ⟨0, none, true, true⟩,
         Op.timer_expiry ⟨0, some ⟨12, 0⟩, true, true⟩]).events
      = [⟨102, ⟨19, 0⟩, 3, 0⟩] ∧
    sorted (run init_scheduler
        [Op.schedule ⟨5, 0⟩ 1 0 ⟨100, some ⟨10, 0⟩, true, true⟩,
         Op.schedule ⟨2, 0⟩ 2 0 ⟨101, some ⟨10, 0⟩, true, true⟩,
         Op.schedule ⟨9, 0⟩ 3 0 ⟨102, some ⟨10, 0⟩, true, true⟩,
         Op.deschedule 100 ⟨0, none, true, true⟩,
         Op.timer_expiry ⟨0, some ⟨12, 0⟩, true, true⟩]).events ∧
    sorted (schedule ⟨[⟨102, ⟨19, 0⟩, 3, 0⟩], none⟩ ⟨1, 5⟩ 4 0
        ⟨103, some ⟨12, 0⟩, true, true⟩).state.events :=
  ⟨by decide, (reachable_queue_sorted.1 _).1,
    reachable_queue_sorted.2 _ _ _ _ _ (by decide)⟩

/-- C2, as stated, fails: after `schedule(3s, A)` and `schedule(3s, B)` at the
same clock reading (A is callback 1, B is callback 2), B sits in front of A in
the queue and the handler run at t = 3s invokes B before A. -/
theorem equal_deadline_fifo_counterexample :
    (run init_scheduler
        [Op.schedule ⟨3, 0⟩ 1 0 ⟨100, some ⟨0, 0⟩, true, true⟩,
         Op.schedule ⟨3, 0⟩ 2 0 ⟨101, some ⟨0, 0⟩, true, true⟩]).events
      = [⟨101, ⟨3, 0⟩, 2, 0⟩, ⟨100, ⟨3, 0⟩, 1, 0⟩] ∧
    ((alarm_handler (run init_scheduler
        [Op.schedule ⟨3, 0⟩ 1 0 ⟨100, some ⟨0, 0⟩, true, true⟩,
         Op.schedule ⟨3, 0⟩ 2 0 ⟨101, some ⟨0, 0⟩, true, true⟩])
        ⟨0, some ⟨3, 0⟩, true, true⟩).invoked.map fun p => p.func) = [2, 1] := by
  decide

/-- C2, amended: a successful `schedule` puts the new entry right after the
leading entries whose deadline is strictly smaller (all of them: the entry that
follows the new one, if any, is not strictly smaller), hence in front of every
queued entry with the same deadline; the handler invokes callbacks in queue
order, so among equal deadlines the entry inserted last is invoked first. -/
theorem equal_deadline_lifo (s : State) (tv : Timeval) (func data : Nat) (sys : Sys)
    (now : Timeval) (hf : func ≠ 0) (hm : sys.malloc ≠ 0)
    (hg : sys.gettimeofday = some now) (hb : sys.sigprocmask_ok = true) :
    ∃ a b : List schedule_entry,
      s.events = a ++ b ∧
      (schedule s tv func data sys).state.events
        = a ++ (⟨sys.malloc, deadline now tv, func, data⟩ : schedule_entry) :: b ∧
      (∀ x ∈ a, TVLESS x.tv (deadline now tv) = true ∧ x.tv ≠ deadline now tv) ∧
      (∀ c ∈ b.head?, TVLESS c.tv (deadline now tv) = false) ∧
      (∀ x ∈ s.events, x.tv = deadline now tv → x ∈ b) ∧
      ∀ sys2 : Sys,
        (alarm_handler (schedule s tv func data sys).state sys2).invoked.Sublist
          (a ++ (⟨sys.malloc, deadline now tv, func, data⟩ : schedule_entry) :: b) := by
  have hev := schedule_events_ok s tv func data sys now hf hm hg hb
  have hw := schedule_scan_walked (deadline now tv) s.events
  refine ⟨(schedule_scan (deadline now tv) s.events).1,
    (schedule_scan (deadline now tv) s.events).2,
    (schedule_scan_append _ _).symm, hev, ?_, schedule_scan_current _ _, ?_, ?_⟩
  · intro x hx
    refine ⟨hw x hx, fun heq => ?_⟩
    have h1 := hw x hx
    rw [heq, TVLESS_iff] at h1
    omega
  · intro x hx heq
    have hx1 : x ∈ (schedule_scan (deadline now tv) s.events).1
        ++ (schedule_scan (deadline now tv) s.events).2 := by
      rw [schedule_scan_append]; exact hx
    rcases List.mem_append.mp hx1 with h1 | h1
    · have h2 := hw x h1
      rw [heq, TVLESS_iff] at h2
      omega
    · exact h1
  · intro sys2
    have h := alarm_handler_invoked_sublist (schedule s tv func data sys).state sys2
    rw [hev] at h
    exact h

/-- Witness for the amended C2: a second entry for deadline 3s goes behind the
1s entry and in front of the first 3s entry. -/
theorem equal_deadline_lifo_witness :
    (schedule ⟨[⟨99, ⟨1, 0⟩, 3, 0⟩, ⟨100, ⟨3, 0⟩, 1, 0⟩], some 1000000⟩ ⟨3, 0⟩ 2 0
        ⟨101, some ⟨0, 0⟩, true, true⟩).state.events
      = [⟨99, ⟨1, 0⟩, 3, 0⟩, ⟨101, ⟨3, 0⟩, 2, 0⟩, ⟨100, ⟨3, 0⟩, 1, 0⟩] ∧
    ∃ a b : List schedule_entry,
      [(⟨99, ⟨1, 0⟩, 3, 0⟩ : schedule_entry), ⟨100, ⟨3, 0⟩, 1, 0⟩] = a ++ b ∧
      (schedule ⟨[⟨99, ⟨1, 0⟩, 3, 0⟩, ⟨100, ⟨3, 0⟩, 1, 0⟩], some 1000000⟩ ⟨3, 0⟩ 2 0
          ⟨101, some ⟨0, 0⟩, true, true⟩).state.events
        = a ++ (⟨101, deadline ⟨0, 0⟩ ⟨3, 0⟩, 2, 0⟩ : schedule_entry) :: b ∧
      (∀ x ∈ a, TVLESS x.tv (deadline ⟨0, 0⟩ ⟨3, 0⟩) = true ∧ x.tv ≠ deadline ⟨0, 0⟩ ⟨3, 0⟩) ∧
      (∀ c ∈ b.head?, TVLESS c.tv (deadline ⟨0, 0⟩ ⟨3, 0⟩) = false) ∧
      (∀ x ∈ [(⟨99, ⟨1, 0⟩, 3, 0⟩ : schedule_entry), ⟨100, ⟨3, 0⟩, 1, 0⟩],
        x.tv = deadline ⟨0, 0⟩ ⟨3, 0⟩ → x ∈ b) ∧
      ∀ sys2 : Sys,
        (alarm_handler (schedule ⟨[⟨99, ⟨1, 0⟩, 3, 0⟩, ⟨100, ⟨3, 0⟩, 1, 0⟩], some 1000000⟩
          ⟨3, 0⟩ 2 0 ⟨101, some ⟨0, 0⟩, true, true⟩).state sys2).invoked.Sublist
          (a ++ (⟨101, deadline ⟨0, 0⟩ ⟨3, 0⟩, 2, 0⟩ : schedule_entry) :: b) :=
  ⟨by decide,
    equal_deadline_lifo ⟨[⟨99, ⟨1, 0⟩, 3, 0⟩, ⟨100, ⟨3, 0⟩, 1, 0⟩], some 1000000⟩ ⟨3, 0⟩ 2 0
      ⟨101, some ⟨0, 0⟩, true, true⟩ ⟨0, 0⟩ (by decide) (by decide) rfl rfl⟩

/-- C4: on a sorted queue, one run of `alarm_handler` that reads the clock as
`now` pops, in queue (that is ascending deadline) order and each once, exactly
the entries with deadline `<= now`, and leaves exactly the entries with
deadline `> now`, in their previous order; it invokes the callback of every
popped entry that has one, so when all queued entries carry a callback (as
those made by `schedule` do) the entries invoked are exactly the due ones. -/
theorem alarm_handler_drains_due (s : State) (sys : Sys) (now : Timeval)
    (hs : sorted s.events)
    (hb : sys.sigprocmask_ok = true) (hg : sys.gettimeofday = some now) :
    (alarm_handler s sys).freed = s.events.filter (fun e => TVLESSEQ e.tv now) ∧
    (alarm_handler s sys).state.events = s.events.filter (fun e => TVGT e.tv now) ∧
    (alarm_handler s sys).freed ++ (alarm_handler s sys).state.events = s.events ∧
    sorted (alarm_handler s sys).freed ∧
    (alarm_handler s sys).invoked
      = (s.events.filter (fun e => TVLESSEQ e.tv now)).filter (fun e => decide (e.func ≠ 0)) ∧
    ((∀ e ∈ s.events, e.func ≠ 0) →
      (alarm_handler s sys).invoked = s.events.filter (fun e => TVLESSEQ e.tv now)) := by
  have hok := alarm_handler_ok s sys now hb hg
  have hsc := alarm_scan_of_sorted now s.events hs
  have hfr : (alarm_handler s sys).freed = s.events.filter (fun e => TVLESSEQ e.tv now) := by
    rw [hok.1, hsc.1]
  have hinv := alarm_handler_invoked s sys
  rw [hfr] at hinv
  refine ⟨hfr, by rw [hok.2, hsc.2], alarm_handler_freed_append s sys, ?_, hinv, ?_⟩
  · rw [hfr]; exact List.Pairwise.sublist (List.filter_sublist _) hs
  · intro hf
    rw [hinv, List.filter_eq_self]
    intro e he
    simpa using hf e (List.mem_of_mem_filter he)

/-- Witness for C4: of three queued entries the two due at t = 6s are invoked,
the third stays. -/
theorem alarm_handler_drains_due_witness :
    (alarm_handler ⟨[⟨100, ⟨2, 0⟩, 1, 0⟩, ⟨101, ⟨6, 0⟩, 2, 0⟩, ⟨102, ⟨6, 1⟩, 3, 0⟩], none⟩
        ⟨0, some ⟨6, 0⟩, true, true⟩).invoked
      = [⟨100, ⟨2, 0⟩, 1, 0⟩, ⟨101, ⟨6, 0⟩, 2, 0⟩] ∧
    (alarm_handler ⟨[⟨100, ⟨2, 0⟩, 1, 0⟩, ⟨101, ⟨6, 0⟩, 2, 0⟩, ⟨102, ⟨6, 1⟩, 3, 0⟩], none⟩
        ⟨0, some ⟨6, 0⟩, true, true⟩).state.events
      = [⟨102, ⟨6, 1⟩, 3, 0⟩] ∧
    (alarm_handler ⟨[⟨100, ⟨2, 0⟩, 1, 0⟩, ⟨101, ⟨6, 0⟩, 2, 0⟩, ⟨102, ⟨6, 1⟩, 3, 0⟩], none⟩
        ⟨0, some ⟨6, 0⟩, true, true⟩).invoked
      = ([⟨100, ⟨2, 0⟩, 1, 0⟩, ⟨101, ⟨6, 0⟩, 2, 0⟩, ⟨102, ⟨6, 1⟩, 3, 0⟩] :
          List schedule_entry).filter (fun e => TVLESSEQ e.tv ⟨6, 0⟩) :=
  ⟨by decide, by decide,
    (alarm_handler_drains_due
      ⟨[⟨100, ⟨2, 0⟩, 1, 0⟩, ⟨101, ⟨6, 0⟩, 2, 0⟩, ⟨102, ⟨6, 1⟩, 3, 0⟩], none⟩
      ⟨0, some ⟨6, 0⟩, true, true⟩ ⟨6, 0⟩ (by decide) rfl rfl).2.2.2.2.2 (by decide)⟩

/-- C5: whatever the queue (sorted or not) and whatever the library calls
return, every entry whose callback `alarm_handler` invokes has a deadline that
is not greater than the clock reading the handler took: a callback never fires
before its deadline. -/
theorem alarm_handler_never_early (s : State) (sys : Sys) :
    ∀ e ∈ (alarm_handler s sys).invoked,
      ∃ now, sys.gettimeofday = some now ∧ TVGT e.tv now = false ∧
        TVLESSEQ e.tv now = true := by
  intro e he
  rw [alarm_handler_invoked] at he
  have he1 := List.mem_of_mem_filter he
  cases hb : sys.sigprocmask_ok with
  | false => simp [alarm_handler, hb] at he1
  | true =>
    cases hg : sys.gettimeofday with
    | none => simp [alarm_handler, hb, hg] at he1
    | some now =>
      rw [(alarm_handler_ok s sys now hb hg).1] at he1
      have hdue := alarm_scan_freed_due now s.events e he1
      refine ⟨now, rfl, ?_, hdue⟩
      rw [← Bool.not_eq_true, TVGT_iff_not_TVLESSEQ, hdue]
      simp

/-- Witness for C5: on the unsorted queue 2s, 9s, 1s a handler run at 6s
invokes the 2s entry, which is not ahead of the clock, and stops at the 9s
entry. -/
theorem alarm_handler_never_early_witness :
    (alarm_handler ⟨[⟨100, ⟨2, 0⟩, 1, 0⟩, ⟨101, ⟨9, 0⟩, 2, 0⟩, ⟨102, ⟨1, 0⟩, 3, 0⟩], none⟩
        ⟨0, some ⟨6, 0⟩, true, true⟩).invoked = [⟨100, ⟨2, 0⟩, 1, 0⟩] ∧
    ∃ now, (⟨0, some ⟨6, 0⟩, true, true⟩ : Sys).gettimeofday = some now ∧
      TVGT (⟨100, ⟨2, 0⟩, 1, 0⟩ : schedule_entry).tv now = false ∧
      TVLESSEQ (⟨100, ⟨2, 0⟩, 1, 0⟩ : schedule_entry).tv now = true :=
  ⟨by decide,
    alarm_handler_never_early
      ⟨[⟨100, ⟨2, 0⟩, 1, 0⟩, ⟨101, ⟨9, 0⟩, 2, 0⟩, ⟨102, ⟨1, 0⟩, 3, 0⟩], none⟩
      ⟨0, some ⟨6, 0⟩, true, true⟩ ⟨100, ⟨2, 0⟩, 1, 0⟩ (by decide)⟩

/-- C3, as stated, fails: `aschedule(60s, A)` at clock 100s and then
`aschedule(50s, B)` at clock 101s (A is callback 1, B is callback 2) request
the distinct deadlines 50s < 60s, yet both lie in the past, are stored as 100s
and 101s, and the handler run at 101s invokes A before B. -/
theorem requested_order_counterexample :
    TVLESS ⟨50, 0⟩ ⟨60, 0⟩ = true ∧
    (run init_scheduler
        [Op.aschedule ⟨60, 0⟩ 1 0 (some ⟨100, 0⟩) ⟨100, some ⟨100, 0⟩, true, true⟩,
         Op.aschedule ⟨50, 0⟩ 2 0 (some ⟨101, 0⟩) ⟨101, some ⟨101, 0⟩, true, true⟩]).events
      = [⟨100, ⟨100, 0⟩, 1, 0⟩, ⟨101, ⟨101, 0⟩, 2, 0⟩] ∧
    ((alarm_handler (run init_scheduler
        [Op.aschedule ⟨60, 0⟩ 1 0 (some ⟨100, 0⟩) ⟨100, some ⟨100, 0⟩, true, true⟩,
         Op.aschedule ⟨50, 0⟩ 2 0 (some ⟨101, 0⟩) ⟨101, some ⟨101, 0⟩, true, true⟩])
        ⟨0, some ⟨101, 0⟩, true, true⟩).invoked.map fun p => p.func) = [1, 2] := by
  decide

/-- C3, amended: after any sequence of successful `schedule` / `aschedule`
calls made from the empty queue, in any call order and at any clock readings,
whose stored deadlines are pairwise distinct, the queue holds exactly the
entries created, in strictly ascending order of stored deadline, and a handler
run invokes, in that strictly ascending order, the callbacks of those that are
due. -/
theorem stored_deadline_order (ops : List Op) (entries : List schedule_entry)
    (hc : ops.map Op.created = entries.map some)
    (hd : (entries.map fun e => e.tv).Nodup) :
    (run init_scheduler ops).events.Perm entries ∧
    (run init_scheduler ops).events.Pairwise (fun a b => TVLESS a.tv b.tv = true) ∧
    ∀ sys : Sys,
      (alarm_handler (run init_scheduler ops) sys).invoked.Pairwise
        (fun a b => TVLESS a.tv b.tv = true) ∧
      ∀ now, sys.sigprocmask_ok = true → sys.gettimeofday = some now →
        (alarm_handler (run init_scheduler ops) sys).invoked
          = (run init_scheduler ops).events.filter (fun e => TVLESSEQ e.tv now) := by
  have hrun := run_created ops entries init_scheduler hc
  have hperm : (run init_scheduler ops).events.Perm entries := by
    simpa [init_scheduler] using hrun.1
  have hs : sorted (run init_scheduler ops).events :=
    run_sorted ops init_scheduler List.Pairwise.nil
  have hnd : ((run init_scheduler ops).events.map fun e => e.tv).Nodup :=
    ((hperm.map _).nodup_iff).mpr hd
  have hne : (run init_scheduler ops).events.Pairwise (fun a b => a.tv ≠ b.tv) :=
    List.pairwise_map.mp hnd
  have hlt : (run init_scheduler ops).events.Pairwise (fun a b => TVLESS a.tv b.tv = true) := by
    refine (hs.and hne).imp ?_
    intro a b hab
    cases hba : TVLESSEQ b.tv a.tv with
    | false => exact (TVLESSEQ_false_iff _ _).mp hba
    | true => exact absurd (tv_eq_of_TVLESSEQ hab.1 hba) hab.2
  refine ⟨hperm, hlt, fun sys => ⟨?_, ?_⟩⟩
  · exact List.Pairwise.sublist (alarm_handler_invoked_sublist _ sys) hlt
  · intro now hb hg
    have hf : ∀ e ∈ (run init_scheduler ops).events, e.func ≠ 0 :=
      fun e he => hrun.2 e (hperm.mem_iff.mp he)
    have hok := alarm_handler_ok (run init_scheduler ops) sys now hb hg
    rw [alarm_handler_invoked, hok.1, (alarm_scan_of_sorted now _ hs).1, List.filter_eq_self]
    intro e he
    simpa using hf e (List.mem_of_mem_filter he)

/-- Witness for the amended C3: 5s, then 2s, then the absolute time 9s,
scheduled at clock 0, are queued as 2s, 5s, 9s. -/
theorem stored_deadline_order_witness :
    (run init_scheduler
        [Op.schedule ⟨5, 0⟩ 1 0 ⟨100, some ⟨0, 0⟩, true, true⟩,
         Op.schedule ⟨2, 0⟩ 2 0 ⟨101, some ⟨0, 0⟩, true, true⟩,
         Op.aschedule ⟨9, 0⟩ 3 0 (some ⟨0, 0⟩) ⟨102, some ⟨0, 0⟩, true, true⟩]).events
      = [⟨101, ⟨2, 0⟩, 2, 0⟩, ⟨100, ⟨5, 0⟩, 1, 0⟩, ⟨102, ⟨9, 0⟩, 3, 0⟩] ∧
    (run init_scheduler
        [Op.schedule ⟨5, 0⟩ 1 0 ⟨100, some ⟨0, 0⟩, true, true⟩,
         Op.schedule ⟨2, 0⟩ 2 0 ⟨101, some ⟨0, 0⟩, true, true⟩,
         Op.aschedule ⟨9, 0⟩ 3 0 (some ⟨0, 0⟩) ⟨102, some ⟨0, 0⟩, true, true⟩]).events.Pairwise
      (fun a b => TVLESS a.tv b.tv = true) :=
  ⟨by decide,
    (stored_deadline_order
      [Op.schedule ⟨5, 0⟩ 1 0 ⟨100, some ⟨0, 0⟩, true, true⟩,
       Op.schedule ⟨2, 0⟩ 2 0 ⟨101, some ⟨0, 0⟩, true, true⟩,
       Op.aschedule ⟨9, 0⟩ 3 0 (some ⟨0, 0⟩) ⟨102, some ⟨0, 0⟩, true, true⟩]
      [⟨100, ⟨5, 0⟩, 1, 0⟩, ⟨101, ⟨2, 0⟩, 2, 0⟩, ⟨102, ⟨9, 0⟩, 3, 0⟩]
      (by decide) (by decide)).2.1⟩

/-- C6: on a queue of distinct nodes, `deschedule(h)` of a queued (non-null)
handle, once the signal is blocked, leaves exactly the other entries in their
previous order, one fewer than before, so that no later handler run can invoke
`h`; `deschedule` of a null handle or of a handle that is not queued leaves the
queue as it was. -/
theorem deschedule_removes_handle (st : State) (h : Nat) (sys : Sys)
    (hd : (st.events.map fun e => e.addr).Nodup) :
    (h ≠ 0 → sys.sigprocmask_ok = true → (h ∈ st.events.map fun e => e.addr) →
      (deschedule st h sys).events = st.events.filter (fun e => decide (e.addr ≠ h)) ∧
      (deschedule st h sys).events.length + 1 = st.events.length ∧
      ∀ sys2 : Sys, ∀ e ∈ (alarm_handler (deschedule st h sys) sys2).invoked, e.addr ≠ h) ∧
    ((h = 0 ∨ h ∉ st.events.map fun e => e.addr) →
      (deschedule st h sys).events = st.events) := by
  refine ⟨fun h0 hb hq => ?_, fun hq => ?_⟩
  · have hev : (deschedule st h sys).events = deschedule_scan h st.events := by
      simp [deschedule, h0, hb]
    have hp := deschedule_scan_present h st.events hd hq
    refine ⟨by rw [hev, hp.1], by rw [hev]; exact hp.2, ?_⟩
    intro sys2 e he
    have h1 := (alarm_handler_invoked_sublist (deschedule st h sys) sys2).subset he
    rw [hev, hp.1] at h1
    simpa using (List.mem_filter.mp h1).2
  · unfold deschedule
    split_ifs
    · rfl
    · rfl
    · rcases hq with hq | hq
      · contradiction
      · exact deschedule_scan_absent h st.events hq

/-- Witness for C6: removing the middle one of three nodes, and a stale
handle. -/
theorem deschedule_removes_handle_witness :
    ((deschedule ⟨[⟨100, ⟨2, 0⟩, 1, 0⟩, ⟨101, ⟨6, 0⟩, 2, 0⟩, ⟨102, ⟨6, 1⟩, 3, 0⟩], none⟩ 101
        ⟨0, none, true, true⟩).events
      = ([⟨100, ⟨2, 0⟩, 1, 0⟩, ⟨101, ⟨6, 0⟩, 2, 0⟩, ⟨102, ⟨6, 1⟩, 3, 0⟩] :
          List schedule_entry).filter (fun e => decide (e.addr ≠ 101))) ∧
    (deschedule ⟨[⟨100, ⟨2, 0⟩, 1, 0⟩, ⟨101, ⟨6, 0⟩, 2, 0⟩, ⟨102, ⟨6, 1⟩, 3, 0⟩], none⟩ 101
        ⟨0, none, true, true⟩).events
      = [⟨100, ⟨2, 0⟩, 1, 0⟩, ⟨102, ⟨6, 1⟩, 3, 0⟩] ∧
    (deschedule ⟨[⟨100, ⟨2, 0⟩, 1, 0⟩, ⟨102, ⟨6, 1⟩, 3, 0⟩], none⟩ 101
        ⟨0, none, true, true⟩).events
      = [⟨100, ⟨2, 0⟩, 1, 0⟩, ⟨102, ⟨6, 1⟩, 3, 0⟩] :=
  ⟨((deschedule_removes_handle
      ⟨[⟨100, ⟨2, 0⟩, 1, 0⟩, ⟨101, ⟨6, 0⟩, 2, 0⟩, ⟨102, ⟨6, 1⟩, 3, 0⟩], none⟩ 101
      ⟨0, none, true, true⟩ (by decide)).1 (by decide) rfl (by decide)).1,
    by decide,
    (deschedule_removes_handle ⟨[⟨100, ⟨2, 0⟩, 1, 0⟩, ⟨102, ⟨6, 1⟩, 3, 0⟩], none⟩ 101
      ⟨0, none, true, true⟩ (by decide)).2 (Or.inr (by decide))⟩

/-- C7: with canonical microseconds in the clock reading and in the queued
deadlines (the clock reading not before the epoch, the queued seconds fitting
in a 64-bit `time_t`, so that head minus now cannot overflow), a handler run
that leaves a non-empty queue calls `setitimer` with an interval in canonical
form whose length is exactly the new head deadline minus `now` (which is
positive, the head not being due), and the time recorded for the timer, clock
reading plus interval, is the head deadline; a run that leaves the queue empty
does not call `setitimer` and leaves the timer as it was. -/
theorem alarm_handler_rearms (s : State) (sys : Sys) (now : Timeval)
    (hb : sys.sigprocmask_ok = true) (hg : sys.gettimeofday = some now)
    (hn : normalized now) (hq : ∀ e ∈ s.events, normalized e.tv)
    (hn0 : 0 ≤ now.tv_sec) (hqf : ∀ e ∈ s.events, fits e.tv.tv_sec) :
    ((alarm_handler s sys).state.events = [] →
      (alarm_handler s sys).itv = none ∧ (alarm_handler s sys).state.timer = s.timer) ∧
    (∀ head ∈ (alarm_handler s sys).state.events.head?,
      ∃ v, (alarm_handler s sys).itv = some v ∧
        usecs v = usecs head.tv - usecs now ∧ 0 < usecs v ∧
        0 ≤ v.tv_sec ∧ 0 ≤ v.tv_usec ∧ v.tv_usec < 1000000 ∧
        (sys.setitimer_ok = true →
          (alarm_handler s sys).state.timer = some (usecs head.tv)) ∧
        (sys.setitimer_ok = false → (alarm_handler s sys).state.timer = s.timer)) :=
  alarm_handler_rearm_spec s sys now hb hg hn hq hn0 hqf

/-- Witness for C7: at clock 6.999999s, with 2s due and 8.000002s pending, the
timer is set for 1.000003s. -/
theorem alarm_handler_rearms_witness :
    (alarm_handler ⟨[⟨100, ⟨2, 0⟩, 1, 0⟩, ⟨101, ⟨8, 2⟩, 2, 0⟩], none⟩
        ⟨0, some ⟨6, 999999⟩, true, true⟩).itv = some ⟨1, 3⟩ ∧
    ∃ v, (alarm_handler ⟨[⟨100, ⟨2, 0⟩, 1, 0⟩, ⟨101, ⟨8, 2⟩, 2, 0⟩], none⟩
        ⟨0, some ⟨6, 999999⟩, true, true⟩).itv = some v ∧
      usecs v = usecs (⟨8, 2⟩ : Timeval) - usecs ⟨6, 999999⟩ ∧ 0 < usecs v ∧
      0 ≤ v.tv_sec ∧ 0 ≤ v.tv_usec ∧ v.tv_usec < 1000000 ∧
      (true = true →
        (alarm_handler ⟨[⟨100, ⟨2, 0⟩, 1, 0⟩, ⟨101, ⟨8, 2⟩, 2, 0⟩], none⟩
          ⟨0, some ⟨6, 999999⟩, true, true⟩).state.timer = some (usecs (⟨8, 2⟩ : Timeval))) ∧
      (true = false →
        (alarm_handler ⟨[⟨100, ⟨2, 0⟩, 1, 0⟩, ⟨101, ⟨8, 2⟩, 2, 0⟩], none⟩
          ⟨0, some ⟨6, 999999⟩, true, true⟩).state.timer = none) :=
  ⟨by decide,
    (alarm_handler_rearms ⟨[⟨100, ⟨2, 0⟩, 1, 0⟩, ⟨101, ⟨8, 2⟩, 2, 0⟩], none⟩
      ⟨0, some ⟨6, 999999⟩, true, true⟩ ⟨6, 999999⟩ rfl rfl (by decide) (by decide)
      (by decide) (by decide)).2
      ⟨101, ⟨8, 2⟩, 2, 0⟩ (by decide)⟩

/-- C9: the code at the claim's inputs.  On the empty queue, at clock 10s, with
every library call succeeding, `schedule(0s)`, `schedule(-1s)` and
`aschedule(5s)` each return the handle 100 and queue the entry, but each calls
`setitimer` with the interval zero, which leaves the timer disarmed (even when
it was armed before the call): no SIGALRM is pending to run the handler. -/
theorem past_deadline_leaves_timer_disarmed :
    schedule init_scheduler ⟨0, 0⟩ 1 0 ⟨100, some ⟨10, 0⟩, true, true⟩
      = ⟨100, ⟨[⟨100, ⟨10, 0⟩, 1, 0⟩], none⟩, some ⟨0, 0⟩⟩ ∧
    schedule init_scheduler ⟨-1, 0⟩ 1 0 ⟨100, some ⟨10, 0⟩, true, true⟩
      = ⟨100, ⟨[⟨100, ⟨9, 0⟩, 1, 0⟩], none⟩, some ⟨0, 0⟩⟩ ∧
    aschedule init_scheduler ⟨5, 0⟩ 1 0 (some ⟨10, 0⟩) ⟨100, some ⟨10, 0⟩, true, true⟩
      = ⟨100, ⟨[⟨100, ⟨10, 0⟩, 1, 0⟩], none⟩, some ⟨0, 0⟩⟩ ∧
    schedule ⟨[], some 12000000⟩ ⟨0, 0⟩ 1 0 ⟨100, some ⟨10, 0⟩, true, true⟩
      = ⟨100, ⟨[⟨100, ⟨10, 0⟩, 1, 0⟩], none⟩, some ⟨0, 0⟩⟩ := by
  decide

/-- C10, as stated, fails: after `schedule(10s)` at clock 0 and `deschedule` of
the returned handle at clock 1s, every library call succeeding, the queue is
empty and the timer is still armed for 10s. -/
theorem timer_disarmed_iff_empty_counterexample :
    run init_scheduler
        [Op.schedule ⟨10, 0⟩ 1 0 ⟨100, some ⟨0, 0⟩, true, true⟩,
         Op.deschedule 100 ⟨0, some ⟨1, 0⟩, true, true⟩]
      = ⟨[], some 10000000⟩ ∧
    ¬ ((run init_scheduler
        [Op.schedule ⟨10, 0⟩ 1 0 ⟨100, some ⟨0, 0⟩, true, true⟩,
         Op.deschedule 100 ⟨0, some ⟨1, 0⟩, true, true⟩]).timer = none ↔
      (run init_scheduler
        [Op.schedule ⟨10, 0⟩ 1 0 ⟨100, some ⟨0, 0⟩, true, true⟩,
         Op.deschedule 100 ⟨0, some ⟨1, 0⟩, true, true⟩]).events = []) := by
  decide

/-- C10, amended: in every state reachable from `init_scheduler` by `schedule`,
`aschedule`, `deschedule` and `alarm_handler` steps whose library calls all
succeed (times with canonical microseconds and seconds small enough for no
arithmetic to overflow: clock readings from 0 to below 2^62, requested times
between -2^62 and 2^62), the time recorded for an armed timer, that is the
clock reading of the call that armed it plus the interval that call passed to
`setitimer`, is not after any queued deadline; and as long as no step asks for
a time that has already come, the timer is armed whenever the queue is
non-empty.  (The kernel counts the interval from the `setitimer` call, which
comes after the clock read: the timer expires at the recorded time or later,
and nothing is said here about how much later.) -/
theorem timer_covers_head (ops : List Op) (hok : ∀ op ∈ ops, op.ok) :
    (∀ t ∈ (run init_scheduler ops).timer, ∀ head ∈ (run init_scheduler ops).events.head?,
      t ≤ usecs head.tv ∧ ∀ e ∈ (run init_scheduler ops).events, t ≤ usecs e.tv) ∧
    ((∀ op ∈ ops, op.future) →
      (run init_scheduler ops).events ≠ [] → (run init_scheduler ops).timer ≠ none) := by
  have h0 : timer_covers init_scheduler :=
    ⟨List.Pairwise.nil, by simp [init_scheduler], by simp [init_scheduler]⟩
  have hcov := run_covers ops init_scheduler hok h0
  refine ⟨?_, fun hfut => run_armed ops init_scheduler hok hfut h0 (by simp [init_scheduler])⟩
  intro t htm head hh
  have h1 := hcov.2.2 t htm head hh
  refine ⟨h1, fun e he => ?_⟩
  have h2 := head_le_of_sorted _ hcov.1 (fun x hx => (hcov.2.1 x hx).1) head hh e he
  omega

/-- Witness for the amended C10: 5s and 2s scheduled at clock 0, the 2s entry
descheduled at 1s: the timer, armed for 2s, is ahead of the 5s head. -/
theorem timer_covers_head_witness :
    run init_scheduler
        [Op.schedule ⟨5, 0⟩ 1 0 ⟨100, some ⟨0, 0⟩, true, true⟩,
         Op.schedule ⟨2, 0⟩ 2 0 ⟨101, some ⟨0, 0⟩, true, true⟩,
         Op.deschedule 101 ⟨0, none, true, true⟩]
      = ⟨[⟨100, ⟨5, 0⟩, 1, 0⟩], some 2000000⟩ ∧
    ((∀ op ∈ [Op.schedule ⟨5, 0⟩ 1 0 ⟨100, some ⟨0, 0⟩, true, true⟩,
         Op.schedule ⟨2, 0⟩ 2 0 ⟨101, some ⟨0, 0⟩, true, true⟩,
         Op.deschedule 101 ⟨0, none, true, true⟩], op.future) →
      (run init_scheduler
        [Op.schedule ⟨5, 0⟩ 1 0 ⟨100, some ⟨0, 0⟩, true, true⟩,
         Op.schedule ⟨2, 0⟩ 2 0 ⟨101, some ⟨0, 0⟩, true, true⟩,
         Op.deschedule 101 ⟨0, none, true, true⟩]).events ≠ [] →
      (run init_scheduler
        [Op.schedule ⟨5, 0⟩ 1 0 ⟨100, some ⟨0, 0⟩, true, true⟩,
         Op.schedule ⟨2, 0⟩ 2 0 ⟨101, some ⟨0, 0⟩, true, true⟩,
         Op.deschedule 101 ⟨0, none, true, true⟩]).timer ≠ none) :=
  ⟨by decide,
    (timer_covers_head
      [Op.schedule ⟨5, 0⟩ 1 0 ⟨100, some ⟨0, 0⟩, true, true⟩,
       Op.schedule ⟨2, 0⟩ 2 0 ⟨101, some ⟨0, 0⟩, true, true⟩,
       Op.deschedule 101 ⟨0, none, true, true⟩] (by decide)).2⟩

/-! ## Failure paths and frame properties -/

/-- A `schedule` call that meets one of its four early returns gives back NULL
and the state it was given. -/
theorem schedule_fail (s : State) (tv : Timeval) (func data : Nat) (sys : Sys)
    (h : func = 0 ∨ sys.malloc = 0 ∨ sys.gettimeofday = none ∨ sys.sigprocmask_ok = false) :
    schedule s tv func data sys = ⟨0, s, none⟩ := by
  by_cases hf : func = 0
  · simp [schedule, hf]
  by_cases hm : sys.malloc = 0
  · simp [schedule, hm]
  cases hg : sys.gettimeofday with
  | none => simp [schedule, hg]
  | some now =>
    cases hb : sys.sigprocmask_ok with
    | false => simp [schedule, hg, hb]
    | true =>
      rcases h with h | h | h | h
      · exact absurd h hf
      · exact absurd h hm
      · rw [hg] at h; cases h
      · rw [hb] at h; cases h

/-- A `schedule` call returns NULL only through one of its early returns. -/
theorem schedule_ret_zero (s : State) (tv : Timeval) (func data : Nat) (sys : Sys)
    (h : (schedule s tv func data sys).ret = 0) :
    func = 0 ∨ sys.malloc = 0 ∨ sys.gettimeofday = none ∨ sys.sigprocmask_ok = false := by
  by_cases hf : func = 0
  · exact Or.inl hf
  by_cases hm : sys.malloc = 0
  · exact Or.inr (Or.inl hm)
  cases hg : sys.gettimeofday with
  | none => exact Or.inr (Or.inr (Or.inl rfl))
  | some now =>
    cases hb : sys.sigprocmask_ok with
    | false => exact Or.inr (Or.inr (Or.inr rfl))
    | true =>
      have hok := (schedule_ok s tv func data sys now hf hm hg hb).1
      rw [hok] at h
      exact absurd h hm

/-- The entry found right after the nodes the insertion scan walked over does
not have a smaller deadline than the new one. -/
theorem schedule_split (s : State) (tv : Timeval) (func data : Nat) (sys : Sys)
    (now : Timeval) (hf : func ≠ 0) (hm : sys.malloc ≠ 0)
    (hg : sys.gettimeofday = some now) (hb : sys.sigprocmask_ok = true) :
    ∃ a b : List schedule_entry,
      s.events = a ++ b ∧
      (schedule s tv func data sys).state.events
        = a ++ (⟨sys.malloc, deadline now tv, func, data⟩ : schedule_entry) :: b ∧
      (∀ x ∈ a, TVLESS x.tv (deadline now tv) = true) ∧
      (∀ c ∈ b.head?, TVLESS c.tv (deadline now tv) = false) :=
  ⟨(schedule_scan (deadline now tv) s.events).1, (schedule_scan (deadline now tv) s.events).2,
    (schedule_scan_append _ _).symm, schedule_events_ok s tv func data sys now hf hm hg hb,
    schedule_scan_walked _ _, schedule_scan_current _ _⟩

/-- C11: whatever the queue, the timer state and the handle (the current head
included), and whatever `sigprocmask` returns, `deschedule` leaves the timer
exactly as it found it: it makes no `setitimer` call, so it neither rearms the
timer for a new head nor disarms it. -/
theorem deschedule_keeps_timer (st : State) (h : Nat) (sys : Sys) :
    (deschedule st h sys).timer = st.timer := by
  unfold deschedule
  split_ifs <;> rfl

/-- C12: `schedule` returns NULL whenever the callback is null, `malloc` fails,
the clock read fails or blocking the signal fails, and `aschedule` does so too
(its own clock read included); whenever either returns NULL, the queue and the
timer are exactly as before the call and `setitimer` was not called. -/
theorem scheduling_failure_is_clean (s : State) (tv : Timeval) (func data : Nat)
    (clock : Option Timeval) (sys : Sys) :
    ((func = 0 ∨ sys.malloc = 0 ∨ sys.gettimeofday = none ∨ sys.sigprocmask_ok = false) →
      (schedule s tv func data sys).ret = 0) ∧
    ((schedule s tv func data sys).ret = 0 →
      (schedule s tv func data sys).state = s ∧ (schedule s tv func data sys).itv = none) ∧
    ((func = 0 ∨ sys.malloc = 0 ∨ clock = none ∨ sys.gettimeofday = none ∨
        sys.sigprocmask_ok = false) →
      (aschedule s tv func data clock sys).ret = 0) ∧
    ((aschedule s tv func data clock sys).ret = 0 →
      (aschedule s tv func data clock sys).state = s ∧
      (aschedule s tv func data clock sys).itv = none) := by
  refine ⟨fun h => ?_, fun h => ?_, fun h => ?_, fun h => ?_⟩
  · rw [schedule_fail s tv func data sys h]
  · rw [schedule_fail s tv func data sys (schedule_ret_zero s tv func data sys h)]
    exact ⟨rfl, rfl⟩
  · cases clock with
    | none => rfl
    | some now1 =>
      have h1 : func = 0 ∨ sys.malloc = 0 ∨ sys.gettimeofday = none ∨
          sys.sigprocmask_ok = false := by
        rcases h with h | h | h | h | h
        · exact Or.inl h
        · exact Or.inr (Or.inl h)
        · cases h
        · exact Or.inr (Or.inr (Or.inl h))
        · exact Or.inr (Or.inr (Or.inr h))
      show (schedule s (interval tv now1) func data sys).ret = 0
      rw [schedule_fail s _ func data sys h1]
  · cases clock with
    | none => exact ⟨rfl, rfl⟩
    | some now1 =>
      have h0 : (schedule s (interval tv now1) func data sys).ret = 0 := h
      show (schedule s (interval tv now1) func data sys).state = s ∧
        (schedule s (interval tv now1) func data sys).itv = none
      rw [schedule_fail s _ func data sys (schedule_ret_zero s _ func data sys h0)]
      exact ⟨rfl, rfl⟩

/-- Witness for C12: a null callback, a failed `malloc`, a failed clock read
and a failed `sigprocmask` each give NULL and leave a one-entry queue with an
armed timer untouched. -/
theorem scheduling_failure_is_clean_witness :
    schedule ⟨[⟨100, ⟨5, 0⟩, 1, 0⟩], some 5000000⟩ ⟨2, 0⟩ 0 0 ⟨101, some ⟨0, 0⟩, true, true⟩
      = ⟨0, ⟨[⟨100, ⟨5, 0⟩, 1, 0⟩], some 5000000⟩, none⟩ ∧
    schedule ⟨[⟨100, ⟨5, 0⟩, 1, 0⟩], some 5000000⟩ ⟨2, 0⟩ 2 0 ⟨0, some ⟨0, 0⟩, true, true⟩
      = ⟨0, ⟨[⟨100, ⟨5, 0⟩, 1, 0⟩], some 5000000⟩, none⟩ ∧
    aschedule ⟨[⟨100, ⟨5, 0⟩, 1, 0⟩], some 5000000⟩ ⟨2, 0⟩ 2 0 none
        ⟨101, some ⟨0, 0⟩, true, true⟩
      = ⟨0, ⟨[⟨100, ⟨5, 0⟩, 1, 0⟩], some 5000000⟩, none⟩ ∧
    (schedule ⟨[⟨100, ⟨5, 0⟩, 1, 0⟩], some 5000000⟩ ⟨2, 0⟩ 2 0
        ⟨101, some ⟨0, 0⟩, false, true⟩).ret = 0 ∧
    (schedule ⟨[⟨100, ⟨5, 0⟩, 1, 0⟩], some 5000000⟩ ⟨2, 0⟩ 2 0
        ⟨101, none, true, true⟩).state = ⟨[⟨100, ⟨5, 0⟩, 1, 0⟩], some 5000000⟩ :=
  ⟨by decide, by decide, by decide,
    (scheduling_failure_is_clean ⟨[⟨100, ⟨5, 0⟩, 1, 0⟩], some 5000000⟩ ⟨2, 0⟩ 2 0 none
      ⟨101, some ⟨0, 0⟩, false, true⟩).1 (Or.inr (Or.inr (Or.inr rfl))),
    ((scheduling_failure_is_clean ⟨[⟨100, ⟨5, 0⟩, 1, 0⟩], some 5000000⟩ ⟨2, 0⟩ 2 0 none
      ⟨101, none, true, true⟩).2.1 (by decide)).1⟩

/-- C13: when the callback is non-null and `malloc`, the clock read and the
signal blocking succeed but `setitimer` fails, `schedule` still returns the
non-null handle of the new entry, and that entry is in the queue right after
the entries with a smaller deadline and in front of one that is not smaller
(so a sorted queue stays sorted); the timer is left as it was. -/
theorem schedule_survives_arm_failure (s : State) (tv : Timeval) (func data : Nat)
    (sys : Sys) (now : Timeval) (hf : func ≠ 0) (hm : sys.malloc ≠ 0)
    (hg : sys.gettimeofday = some now) (hb : sys.sigprocmask_ok = true)
    (hs : sys.setitimer_ok = false) :
    (schedule s tv func data sys).ret = sys.malloc ∧
    (schedule s tv func data sys).ret ≠ 0 ∧
    (∃ a b : List schedule_entry,
      s.events = a ++ b ∧
      (schedule s tv func data sys).state.events
        = a ++ (⟨sys.malloc, deadline now tv, func, data⟩ : schedule_entry) :: b ∧
      (∀ x ∈ a, TVLESS x.tv (deadline now tv) = true) ∧
      (∀ c ∈ b.head?, TVLESS c.tv (deadline now tv) = false)) ∧
    (sorted s.events → sorted (schedule s tv func data sys).state.events) ∧
    (schedule s tv func data sys).state.timer = s.timer := by
  have hok := schedule_ok s tv func data sys now hf hm hg hb
  refine ⟨hok.1, by rw [hok.1]; exact hm, schedule_split s tv func data sys now hf hm hg hb,
    schedule_sorted s tv func data sys, ?_⟩
  by_cases hw : (schedule_scan (deadline now tv) s.events).1 = []
  · rw [(hok.2.1 hw).2]
    simp [setitimer, hs]
  · exact (hok.2.2 hw).2

/-- Witness for C13: a 2s entry scheduled in front of a 5s entry while
`setitimer` fails is queued and its handle returned; the timer keeps its old
setting. -/
theorem schedule_survives_arm_failure_witness :
    schedule ⟨[⟨100, ⟨5, 0⟩, 1, 0⟩], some 5000000⟩ ⟨2, 0⟩ 2 0
        ⟨101, some ⟨0, 0⟩, true, false⟩
      = ⟨101, ⟨[⟨101, ⟨2, 0⟩, 2, 0⟩, ⟨100, ⟨5, 0⟩, 1, 0⟩], some 5000000⟩, some ⟨2, 0⟩⟩ ∧
    (schedule ⟨[⟨100, ⟨5, 0⟩, 1, 0⟩], some 5000000⟩ ⟨2, 0⟩ 2 0
        ⟨101, some ⟨0, 0⟩, true, false⟩).ret ≠ 0 :=
  ⟨by decide,
    (schedule_survives_arm_failure ⟨[⟨100, ⟨5, 0⟩, 1, 0⟩], some 5000000⟩ ⟨2, 0⟩ 2 0
      ⟨101, some ⟨0, 0⟩, true, false⟩ ⟨0, 0⟩ (by decide) (by decide) rfl rfl rfl).2.1⟩

/-! ## Stored deadlines -/

theorem TVLESS_iff_usecs {a b : Timeval} (ha : normalized a) (hb : normalized b) :
    TVLESS a b = true ↔ usecs a < usecs b := by
  rw [TVLESS_iff]
  unfold usecs
  unfold normalized at ha hb
  omega

theorem TVGT_iff_usecs {a b : Timeval} (ha : normalized a) (hb : normalized b) :
    TVGT a b = true ↔ usecs b < usecs a := by
  rw [TVGT_iff]
  unfold usecs
  unfold normalized at ha hb
  omega

/-- Two timevals with canonical microseconds that denote the same time are the
same timeval. -/
theorem timeval_eq_of_usecs {a b : Timeval} (ha : normalized a) (hb : normalized b)
    (h : usecs a = usecs b) : a = b := by
  cases a with
  | mk asec ausec =>
    cases b with
    | mk bsec busec =>
      simp only [usecs, normalized, Timeval.mk.injEq] at *
      omega

/-- The round trip of `aschedule` when both clock reads agree and the
subtraction of the seconds does not overflow: a time that is not in the past
comes back unchanged, a past one becomes the clock reading. -/
theorem deadline_interval (d now : Timeval) (hd : normalized d) (hn : normalized now)
    (hfd : fits d.tv_sec) (hfn : fits now.tv_sec)
    (h1 : fits (d.tv_sec - now.tv_sec)) (h2 : fits (d.tv_sec - now.tv_sec - 1)) :
    (TVLESSEQ now d = true → deadline now (interval d now) = d) ∧
    (TVLESS d now = true → interval d now = zero ∧ deadline now (interval d now) = now) := by
  have hsp := interval_spec d now hd hn h1 h2
  have hdn := deadline_normalized now (interval d now) hn hsp.1
  refine ⟨fun h => ?_, fun h => ?_⟩
  · have hle := (TVLESSEQ_iff_usecs hn hd).mp h
    have hv := hsp.2.2.1 hle
    have hi1 := hsp.1
    have hi2 := hsp.2.1
    have hdu : usecs (deadline now (interval d now)) = usecs now + usecs (interval d now) := by
      apply deadline_exact now (interval d now) hn hsp.1
      · simp only [usecs, normalized, fits] at *
        omega
      · intro hc
        simp only [usecs, normalized, fits] at *
        omega
    exact timeval_eq_of_usecs hdn hd (by omega)
  · have hlt := (TVLESS_iff_usecs hd hn).mp h
    have hz := hsp.2.2.2 hlt
    refine ⟨hz, timeval_eq_of_usecs hdn hn ?_⟩
    rw [hz]
    have hdu : usecs (deadline now zero) = usecs now + usecs zero := by
      apply deadline_exact now zero hn (by decide)
      · simp only [zero, fits] at *
        omega
      · intro hc
        simp only [zero, normalized] at *
        omega
    rw [hdu]
    simp [usecs, zero]

/-- C14, as stated, fails: the delay seconds may not be any non-negative
integer.  At clock 10s, `schedule` with a delay of 2^63 - 1 seconds overflows
the 64-bit sum of the seconds and stores a deadline of -9223372036854775799
seconds, which is not now + delay. -/
theorem schedule_stores_deadline_counterexample :
    (schedule init_scheduler ⟨9223372036854775807, 0⟩ 7 9
        ⟨100, some ⟨10, 0⟩, true, true⟩).state.events
      = [⟨100, ⟨-9223372036854775799, 0⟩, 7, 9⟩] ∧
    usecs ⟨-9223372036854775799, 0⟩ ≠ usecs ⟨10, 0⟩ + usecs ⟨9223372036854775807, 0⟩ := by
  decide

/-- C14, amended: for a clock reading and a delay whose microseconds are
canonical and whose seconds add up to a value that, also when one more second
is carried, fits in a 64-bit `time_t`, a successful `schedule` queues one new
entry, the one whose handle it returns, whose deadline in microseconds is
exactly now + delay, with canonical microseconds, and which carries exactly the
callback and the data pointer passed in. -/
theorem schedule_stores_deadline (s : State) (tv : Timeval) (func data : Nat) (sys : Sys)
    (now : Timeval) (hf : func ≠ 0) (hm : sys.malloc ≠ 0)
    (hg : sys.gettimeofday = some now) (hb : sys.sigprocmask_ok = true)
    (hn : normalized now) (ht : normalized tv)
    (h1 : fits (now.tv_sec + tv.tv_sec)) (h2 : fits (now.tv_sec + tv.tv_sec + 1)) :
    ∃ e : schedule_entry,
      (schedule s tv func data sys).state.events.Perm (e :: s.events) ∧
      e.addr = (schedule s tv func data sys).ret ∧
      usecs e.tv = usecs now + usecs tv ∧
      0 ≤ e.tv.tv_usec ∧ e.tv.tv_usec < 1000000 ∧
      e.func = func ∧ e.data = data := by
  have hev := schedule_events_ok s tv func data sys now hf hm hg hb
  have hok := schedule_ok s tv func data sys now hf hm hg hb
  have hdn := deadline_normalized now tv hn ht
  refine ⟨⟨sys.malloc, deadline now tv, func, data⟩, ?_, hok.1.symm,
    deadline_usecs now tv hn ht h1 h2, hdn.1, hdn.2, rfl, rfl⟩
  rw [hev]
  exact enqueue_perm _ _

/-- Witness for the amended C14: 1.600000s after 10.700000s is stored as
12.300000s. -/
theorem schedule_stores_deadline_witness :
    (schedule init_scheduler ⟨1, 600000⟩ 7 9 ⟨100, some ⟨10, 700000⟩, true, true⟩).state.events
      = [⟨100, ⟨12, 300000⟩, 7, 9⟩] ∧
    ∃ e : schedule_entry,
      (schedule init_scheduler ⟨1, 600000⟩ 7 9
        ⟨100, some ⟨10, 700000⟩, true, true⟩).state.events.Perm (e :: init_scheduler.events) ∧
      e.addr = (schedule init_scheduler ⟨1, 600000⟩ 7 9
        ⟨100, some ⟨10, 700000⟩, true, true⟩).ret ∧
      usecs e.tv = usecs ⟨10, 700000⟩ + usecs ⟨1, 600000⟩ ∧
      0 ≤ e.tv.tv_usec ∧ e.tv.tv_usec < 1000000 ∧
      e.func = 7 ∧ e.data = 9 :=
  ⟨by decide,
    schedule_stores_deadline init_scheduler ⟨1, 600000⟩ 7 9
      ⟨100, some ⟨10, 700000⟩, true, true⟩ ⟨10, 700000⟩ (by decide) (by decide) rfl rfl
      (by decide) (by decide) (by decide) (by decide)⟩

/-- C15, as stated, fails: at clock 10s, both reads agreeing, `aschedule` of the
absolute time -2^63 seconds (canonical microseconds, before `now`) overflows
the 64-bit subtraction, is not clamped, and queues the deadline -2^63 seconds
instead of `now`. -/
theorem aschedule_stores_deadline_counterexample :
    TVLESS ⟨-9223372036854775808, 0⟩ ⟨10, 0⟩ = true ∧
    interval ⟨-9223372036854775808, 0⟩ ⟨10, 0⟩ = ⟨9223372036854775798, 0⟩ ∧
    (aschedule init_scheduler ⟨-9223372036854775808, 0⟩ 7 9 (some ⟨10, 0⟩)
        ⟨100, some ⟨10, 0⟩, true, true⟩).state.events
      = [⟨100, ⟨-9223372036854775808, 0⟩, 7, 9⟩] := by
  decide

/-- C15, amended: when both clock reads of a successful `aschedule` call return
the same `now`, `now` and the absolute time `d` have canonical microseconds and
seconds that fit in a 64-bit `time_t`, and the difference of their seconds,
also when one more second is borrowed, fits too: if `d` is not before `now` the
entry queued has deadline exactly `d`; if `d` is before `now` the delay is
clamped to zero and the entry queued has deadline exactly `now`. -/
theorem aschedule_stores_deadline (s : State) (d : Timeval) (func data : Nat) (sys : Sys)
    (now : Timeval) (hf : func ≠ 0) (hm : sys.malloc ≠ 0)
    (hg : sys.gettimeofday = some now) (hb : sys.sigprocmask_ok = true)
    (hn : normalized now) (hd : normalized d)
    (hfd : fits d.tv_sec) (hfn : fits now.tv_sec)
    (h1 : fits (d.tv_sec - now.tv_sec)) (h2 : fits (d.tv_sec - now.tv_sec - 1)) :
    (TVLESSEQ now d = true →
      deadline now (interval d now) = d ∧
      (aschedule s d func data (some now) sys).state.events
        = enqueue ⟨sys.malloc, d, func, data⟩ s.events ∧
      (aschedule s d func data (some now) sys).state.events.Perm
        (⟨sys.malloc, d, func, data⟩ :: s.events)) ∧
    (TVLESS d now = true →
      interval d now = zero ∧
      (aschedule s d func data (some now) sys).state.events
        = enqueue ⟨sys.malloc, now, func, data⟩ s.events ∧
      (aschedule s d func data (some now) sys).state.events.Perm
        (⟨sys.malloc, now, func, data⟩ :: s.events)) := by
  have hev : (aschedule s d func data (some now) sys).state.events
      = enqueue ⟨sys.malloc, deadline now (interval d now), func, data⟩ s.events :=
    schedule_events_ok s (interval d now) func data sys now hf hm hg hb
  have hdi := deadline_interval d now hd hn hfd hfn h1 h2
  refine ⟨fun h => ?_, fun h => ?_⟩
  · have h1 := hdi.1 h
    rw [hev, h1]
    exact ⟨rfl, rfl, enqueue_perm _ _⟩
  · have h1 := hdi.2 h
    rw [hev, h1.2]
    exact ⟨h1.1, rfl, enqueue_perm _ _⟩

/-- Witness for the amended C15: at clock 10.700000s the absolute time
12.300000s is stored as such, and the past time 9.900000s is stored as
10.700000s. -/
theorem aschedule_stores_deadline_witness :
    (aschedule init_scheduler ⟨12, 300000⟩ 7 9 (some ⟨10, 700000⟩)
        ⟨100, some ⟨10, 700000⟩, true, true⟩).state.events
      = [⟨100, ⟨12, 300000⟩, 7, 9⟩] ∧
    (aschedule init_scheduler ⟨9, 900000⟩ 7 9 (some ⟨10, 700000⟩)
        ⟨100, some ⟨10, 700000⟩, true, true⟩).state.events
      = [⟨100, ⟨10, 700000⟩, 7, 9⟩] ∧
    deadline ⟨10, 700000⟩ (interval ⟨12, 300000⟩ ⟨10, 700000⟩) = ⟨12, 300000⟩ ∧
    interval ⟨9, 900000⟩ ⟨10, 700000⟩ = zero :=
  ⟨by decide, by decide,
    ((aschedule_stores_deadline init_scheduler ⟨12, 300000⟩ 7 9
      ⟨100, some ⟨10, 700000⟩, true, true⟩ ⟨10, 700000⟩ (by decide) (by decide) rfl rfl
      (by decide) (by decide) (by decide) (by decide) (by decide) (by decide)).1
        (by decide)).1,
    ((aschedule_stores_deadline init_scheduler ⟨9, 900000⟩ 7 9
      ⟨100, some ⟨10, 700000⟩, true, true⟩ ⟨10, 700000⟩ (by decide) (by decide) rfl rfl
      (by decide) (by decide) (by decide) (by decide) (by decide) (by decide)).2
        (by decide)).1⟩

/-- C16, as stated, fails: `schedule(-1s)` at clock 10s is accepted and queues
an entry whose stored deadline, 9s, is before the clock reading. -/
theorem deadline_before_clock_counterexample :
    schedule init_scheduler ⟨-1, 0⟩ 1 0 ⟨100, some ⟨10, 0⟩, true, true⟩
      = ⟨100, ⟨[⟨100, ⟨9, 0⟩, 1, 0⟩], none⟩, some ⟨0, 0⟩⟩ ∧
    TVLESSEQ ⟨10, 0⟩ ⟨9, 0⟩ = false ∧ TVLESS ⟨9, 0⟩ ⟨10, 0⟩ = true := by
  decide

/-- C16, amended: with canonical microseconds in the clock readings and in the
time passed in, and as long as adding the delay to the clock reading (plus one
carried second) does not overflow a 64-bit `time_t`: the entry a successful
`schedule` inserts for a delay that is not negative, and the entry a successful
`aschedule` inserts for any absolute time (a past one included, its delay being
clamped to zero), has a stored deadline that is not before the clock reading
`schedule` took when inserting it (nor before the reading `aschedule` took, if
the clock did not run backwards in between). -/
theorem stored_deadline_not_before_clock (s : State) (tv : Timeval) (func data : Nat)
    (sys : Sys) (now now1 : Timeval) (hf : func ≠ 0) (hm : sys.malloc ≠ 0)
    (hg : sys.gettimeofday = some now) (hb : sys.sigprocmask_ok = true)
    (hn : normalized now) (hn1 : normalized now1) (ht : normalized tv)
    (hfn : fits now.tv_sec) :
    (0 ≤ usecs tv → fits (now.tv_sec + tv.tv_sec + 1) →
      ∃ e : schedule_entry,
        (schedule s tv func data sys).state.events.Perm (e :: s.events) ∧
        e.addr = (schedule s tv func data sys).ret ∧ e.tv = deadline now tv ∧
        TVLESSEQ now e.tv = true) ∧
    (fits (now.tv_sec + (interval tv now1).tv_sec + 1) →
      ∃ e : schedule_entry,
        (aschedule s tv func data (some now1) sys).state.events.Perm (e :: s.events) ∧
        e.addr = (aschedule s tv func data (some now1) sys).ret ∧
        e.tv = deadline now (interval tv now1) ∧
        TVLESSEQ now e.tv = true ∧
        (TVLESSEQ now1 now = true → TVLESSEQ now1 e.tv = true)) := by
  refine ⟨fun h0 hfit => ?_, fun hfit => ?_⟩
  · have hev := schedule_events_ok s tv func data sys now hf hm hg hb
    have hok := schedule_ok s tv func data sys now hf hm hg hb
    have hfs : fits (now.tv_sec + tv.tv_sec) := by
      simp only [usecs, normalized, fits] at *
      omega
    refine ⟨⟨sys.malloc, deadline now tv, func, data⟩, ?_, hok.1.symm, rfl, ?_⟩
    · rw [hev]; exact enqueue_perm _ _
    · rw [TVLESSEQ_iff_usecs hn (deadline_normalized now tv hn ht),
        deadline_usecs now tv hn ht hfs hfit]
      omega
  · have hsp := interval_canonical tv now1 ht hn1
    have hev : (aschedule s tv func data (some now1) sys).state.events
        = enqueue ⟨sys.malloc, deadline now (interval tv now1), func, data⟩ s.events :=
      schedule_events_ok s (interval tv now1) func data sys now hf hm hg hb
    have hret : (aschedule s tv func data (some now1) sys).ret = sys.malloc :=
      (schedule_ok s (interval tv now1) func data sys now hf hm hg hb).1
    have hdn := deadline_normalized now (interval tv now1) hn hsp.1
    have hfs : fits (now.tv_sec + (interval tv now1).tv_sec) := by
      have h2 := hsp.2.1
      simp only [fits] at *
      omega
    have hdu := deadline_usecs now (interval tv now1) hn hsp.1 hfs hfit
    have hnonneg : 0 ≤ usecs (interval tv now1) := by
      have h1 := hsp.1
      have h2 := hsp.2.1
      simp only [usecs, normalized] at *
      omega
    have hle : TVLESSEQ now (deadline now (interval tv now1)) = true := by
      rw [TVLESSEQ_iff_usecs hn hdn, hdu]
      omega
    refine ⟨⟨sys.malloc, deadline now (interval tv now1), func, data⟩, ?_, hret.symm, rfl,
      hle, fun h1 => TVLESSEQ_trans h1 hle⟩
    rw [hev]; exact enqueue_perm _ _

/-- Witness for the amended C16: a zero delay and a past absolute time are both
stored as the clock reading. -/
theorem stored_deadline_not_before_clock_witness :
    (schedule init_scheduler ⟨0, 0⟩ 1 0 ⟨100, some ⟨10, 0⟩, true, true⟩).state.events
      = [⟨100, ⟨10, 0⟩, 1, 0⟩] ∧
    (aschedule init_scheduler ⟨0, 0⟩ 1 0 (some ⟨9, 0⟩)
      ⟨100, some ⟨10, 0⟩, true, true⟩).state.events = [⟨100, ⟨10, 0⟩, 1, 0⟩] ∧
    ∃ e : schedule_entry,
      (aschedule init_scheduler ⟨0, 0⟩ 1 0 (some ⟨9, 0⟩)
        ⟨100, some ⟨10, 0⟩, true, true⟩).state.events.Perm (e :: init_scheduler.events) ∧
      e.addr = (aschedule init_scheduler ⟨0, 0⟩ 1 0 (some ⟨9, 0⟩)
        ⟨100, some ⟨10, 0⟩, true, true⟩).ret ∧
      e.tv = deadline ⟨10, 0⟩ (interval ⟨0, 0⟩ ⟨9, 0⟩) ∧
      TVLESSEQ ⟨10, 0⟩ e.tv = true ∧
      (TVLESSEQ ⟨9, 0⟩ ⟨10, 0⟩ = true → TVLESSEQ ⟨9, 0⟩ e.tv = true) :=
  ⟨by decide, by decide,
    (stored_deadline_not_before_clock init_scheduler ⟨0, 0⟩ 1 0
      ⟨100, some ⟨10, 0⟩, true, true⟩ ⟨10, 0⟩ ⟨9, 0⟩ (by decide) (by decide) rfl rfl
      (by decide) (by decide) (by decide) (by decide)).2 (by decide)⟩

/-- C18: when `alarm_handler` cannot block the signal or cannot read the clock,
it pops nothing, invokes no callback, makes no `setitimer` call and leaves the
queue and the timer exactly as they were on entry. -/
theorem alarm_handler_failure_is_inert (s : State) (sys : Sys)
    (h : sys.sigprocmask_ok = false ∨ sys.gettimeofday = none) :
    (alarm_handler s sys).invoked = [] ∧ (alarm_handler s sys).freed = [] ∧
    (alarm_handler s sys).state = s ∧ (alarm_handler s sys).itv = none := by
  cases hb : sys.sigprocmask_ok with
  | false => simp [alarm_handler, hb]
  | true =>
    rcases h with h | h
    · rw [hb] at h; cases h
    · simp [alarm_handler, hb, h]

/-- Witness for C18: with the clock read failing, a due entry stays queued and
the armed timer stays as it was. -/
theorem alarm_handler_failure_is_inert_witness :
    alarm_handler ⟨[⟨100, ⟨2, 0⟩, 1, 0⟩], some 2000000⟩ ⟨0, none, true, true⟩
      = ⟨⟨[⟨100, ⟨2, 0⟩, 1, 0⟩], some 2000000⟩, [], [], none⟩ ∧
    (alarm_handler ⟨[⟨100, ⟨2, 0⟩, 1, 0⟩], some 2000000⟩ ⟨0, some ⟨6, 0⟩, false, true⟩).state
      = ⟨[⟨100, ⟨2, 0⟩, 1, 0⟩], some 2000000⟩ :=
  ⟨by decide,
    (alarm_handler_failure_is_inert ⟨[⟨100, ⟨2, 0⟩, 1, 0⟩], some 2000000⟩
      ⟨0, some ⟨6, 0⟩, false, true⟩ (Or.inl rfl)).2.2.1⟩

/-- C19: whatever the queue (sorted or not), a successful `schedule` leaves the
previous queue with exactly one new entry put in at one place: the new queue is
one entry longer, holds the new entry and every previous entry as often as
before, and keeps the previous entries in their previous order. -/
theorem schedule_inserts_one (s : State) (tv : Timeval) (func data : Nat) (sys : Sys)
    (now : Timeval) (hf : func ≠ 0) (hm : sys.malloc ≠ 0)
    (hg : sys.gettimeofday = some now) (hb : sys.sigprocmask_ok = true) :
    (∃ a b : List schedule_entry,
      s.events = a ++ b ∧
      (schedule s tv func data sys).state.events
        = a ++ (⟨sys.malloc, deadline now tv, func, data⟩ : schedule_entry) :: b) ∧
    (schedule s tv func data sys).state.events.length = s.events.length + 1 ∧
    (schedule s tv func data sys).state.events.Perm
      (⟨sys.malloc, deadline now tv, func, data⟩ :: s.events) ∧
    s.events.Sublist (schedule s tv func data sys).state.events := by
  obtain ⟨a, b, hab, hev, _, _⟩ := schedule_split s tv func data sys now hf hm hg hb
  have hperm : (schedule s tv func data sys).state.events.Perm
      (⟨sys.malloc, deadline now tv, func, data⟩ :: s.events) := by
    rw [schedule_events_ok s tv func data sys now hf hm hg hb]
    exact enqueue_perm _ _
  refine ⟨⟨a, b, hab, hev⟩, ?_, hperm, ?_⟩
  · rw [hperm.length_eq]; rfl
  · rw [hev, hab]
    exact List.Sublist.append (List.Sublist.refl a) (List.sublist_cons_self _ b)

/-- Witness for C19: on the unsorted queue 7s, 3s, 9s a 5s entry goes in front
and the three others keep their places. -/
theorem schedule_inserts_one_witness :
    (schedule ⟨[⟨100, ⟨7, 0⟩, 1, 0⟩, ⟨101, ⟨3, 0⟩, 2, 0⟩, ⟨102, ⟨9, 0⟩, 3, 0⟩], none⟩
        ⟨5, 0⟩ 4 0 ⟨103, some ⟨0, 0⟩, true, true⟩).state.events
      = [⟨103, ⟨5, 0⟩, 4, 0⟩, ⟨100, ⟨7, 0⟩, 1, 0⟩, ⟨101, ⟨3, 0⟩, 2, 0⟩, ⟨102, ⟨9, 0⟩, 3, 0⟩] ∧
    (schedule ⟨[⟨100, ⟨7, 0⟩, 1, 0⟩, ⟨101, ⟨3, 0⟩, 2, 0⟩, ⟨102, ⟨9, 0⟩, 3, 0⟩], none⟩
        ⟨5, 0⟩ 4 0 ⟨103, some ⟨0, 0⟩, true, true⟩).state.events.length
      = ([⟨100, ⟨7, 0⟩, 1, 0⟩, ⟨101, ⟨3, 0⟩, 2, 0⟩, ⟨102, ⟨9, 0⟩, 3, 0⟩] :
          List schedule_entry).length + 1 :=
  ⟨by decide,
    (schedule_inserts_one
      ⟨[⟨100, ⟨7, 0⟩, 1, 0⟩, ⟨101, ⟨3, 0⟩, 2, 0⟩, ⟨102, ⟨9, 0⟩, 3, 0⟩], none⟩
      ⟨5, 0⟩ 4 0 ⟨103, some ⟨0, 0⟩, true, true⟩ ⟨0, 0⟩ (by decide) (by decide) rfl rfl).2.1⟩

/-- C20: on timevals with canonical microseconds `TVLESSEQ(a,b)` holds exactly
when a's time in microseconds is at most b's, `TVLESS(a,b)` when it is strictly
less and `TVGT(a,b)` when it is strictly greater; so `TVLESSEQ` is the negation
of `TVGT`, and `TVLESS` is a strict total order: irreflexive, asymmetric,
transitive, and any two different timevals are ordered one way or the other. -/
theorem timeval_comparisons (a b c : Timeval) (ha : normalized a) (hb : normalized b)
    (hc : normalized c) :
    (TVLESSEQ a b = true ↔ usecs a ≤ usecs b) ∧
    (TVLESS a b = true ↔ usecs a < usecs b) ∧
    (TVGT a b = true ↔ usecs b < usecs a) ∧
    TVLESSEQ a b = (!TVGT a b) ∧
    TVLESS a a = false ∧
    (TVLESS a b = true → TVLESS b a = false) ∧
    (TVLESS a b = true → TVLESS b c = true → TVLESS a c = true) ∧
    (TVLESS a b = true ∨ a = b ∨ TVLESS b a = true) := by
  have h1 := TVLESSEQ_iff_usecs ha hb
  have h2 := @TVLESS_iff_usecs a b ha hb
  have h3 := @TVGT_iff_usecs a b ha hb
  have h4 := @TVLESS_iff_usecs b a hb ha
  have h5 := @TVLESS_iff_usecs b c hb hc
  have h6 := @TVLESS_iff_usecs a c ha hc
  refine ⟨h1, h2, h3, ?_, ?_, ?_, ?_, ?_⟩
  · cases hle : TVLESSEQ a b with
    | true =>
      cases hgt : TVGT a b with
      | true => rw [(TVGT_iff_not_TVLESSEQ a b).mp hgt] at hle; cases hle
      | false => rfl
    | false => rw [(TVGT_iff_not_TVLESSEQ a b).mpr hle]; rfl
  · rw [TVLESS_false_iff]; exact TVLESSEQ_refl a
  · intro hab
    rw [← Bool.not_eq_true, h4]
    have := h2.mp hab
    omega
  · intro hab hbc
    rw [h6]
    have := h2.mp hab
    have := h5.mp hbc
    omega
  · by_cases hlt : usecs a < usecs b
    · exact Or.inl (h2.mpr hlt)
    · by_cases hgt : usecs b < usecs a
      · exact Or.inr (Or.inr (h4.mpr hgt))
      · exact Or.inr (Or.inl (timeval_eq_of_usecs ha hb (by omega)))

/-- Witness for C20: 1.999999s, 2.000000s and 2.000001s. -/
theorem timeval_comparisons_witness :
    (TVLESSEQ ⟨1, 999999⟩ ⟨2, 0⟩ = true ↔ usecs ⟨1, 999999⟩ ≤ usecs ⟨2, 0⟩) ∧
    (TVLESS ⟨1, 999999⟩ ⟨2, 0⟩ = true ↔ usecs ⟨1, 999999⟩ < usecs ⟨2, 0⟩) ∧
    (TVGT ⟨1, 999999⟩ ⟨2, 0⟩ = true ↔ usecs ⟨2, 0⟩ < usecs ⟨1, 999999⟩) ∧
    TVLESSEQ ⟨1, 999999⟩ ⟨2, 0⟩ = (!TVGT ⟨1, 999999⟩ ⟨2, 0⟩) ∧
    TVLESS ⟨1, 999999⟩ ⟨1, 999999⟩ = false ∧
    (TVLESS ⟨1, 999999⟩ ⟨2, 0⟩ = true → TVLESS ⟨2, 0⟩ ⟨1, 999999⟩ = false) ∧
    (TVLESS ⟨1, 999999⟩ ⟨2, 0⟩ = true → TVLESS ⟨2, 0⟩ ⟨2, 1⟩ = true →
      TVLESS ⟨1, 999999⟩ ⟨2, 1⟩ = true) ∧
    (TVLESS ⟨1, 999999⟩ ⟨2, 0⟩ = true ∨ (⟨1, 999999⟩ : Timeval) = ⟨2, 0⟩ ∨
      TVLESS ⟨2, 0⟩ ⟨1, 999999⟩ = true) :=
  timeval_comparisons ⟨1, 999999⟩ ⟨2, 0⟩ ⟨2, 1⟩ (by decide) (by decide) (by decide)

/-! ## Mutations and the signal mask -/

theorem guarded_schedule_acts (m : Bool) (s : State) (tv : Timeval) (func data : Nat)
    (sys : Sys) : guarded m (schedule_acts s tv func data sys) = true := by
  unfold schedule_acts
  by_cases hf : func = 0
  · simp [hf, guarded]
  by_cases hm : sys.malloc = 0
  · simp [hf, hm, guarded]
  cases hg : sys.gettimeofday with
  | none => simp [hf, hm, guarded]
  | some now =>
    cases hb : sys.sigprocmask_ok with
    | false => simp [hf, hm, guarded]
    | true =>
      simp only [hf, hm, if_false, Bool.true_eq_false]
      split_ifs <;> simp [guarded]

theorem guarded_aschedule_acts (m : Bool) (s : State) (tv : Timeval) (func data : Nat)
    (clock : Option Timeval) (sys : Sys) :
    guarded m (aschedule_acts s tv func data clock sys) = true := by
  cases clock with
  | none => simp [aschedule_acts, guarded]
  | some now => exact guarded_schedule_acts m s _ func data sys

theorem guarded_deschedule_acts (m : Bool) (st : State) (x : Nat) (sys : Sys) :
    guarded m (deschedule_acts st x sys) = true := by
  unfold deschedule_acts
  split_ifs <;> simp [guarded]

theorem guarded_replicate_mutate (n : Nat) (rest : List Act) :
    guarded true (List.replicate n Act.mutate ++ rest) = guarded true rest := by
  induction n with
  | zero => rfl
  | succ n ih => simp [List.replicate_succ, guarded, ih]

/-- With callbacks that make no scheduler call the loop is the loop of
`alarm_scan`, one `mutate` for each entry popped. -/
theorem alarm_loop_quiet (now : Timeval) (t : Option Int) (q : List schedule_entry) :
    ∀ fuel, q.length < fuel →
      alarm_loop (fun _ _ => []) now fuel ⟨q, t⟩
        = some (⟨(alarm_scan now q).2, t⟩,
            List.replicate (alarm_scan now q).1.length Act.mutate) := by
  induction q with
  | nil =>
    intro fuel hfuel
    cases fuel with
    | zero => simp at hfuel
    | succ n => rfl
  | cons p rest ih =>
    intro fuel hfuel
    cases fuel with
    | zero => simp at hfuel
    | succ n =>
      have hn : rest.length < n := by
        simp only [List.length_cons] at hfuel
        omega
      by_cases hdue : TVLESSEQ p.tv now = true
      · simp only [alarm_loop, hdue, if_true, calls_run, ite_self, ih n hn, alarm_scan,
          List.length_cons, List.replicate_succ, List.nil_append]
      · simp [alarm_loop, hdue, alarm_scan]

/-- With callbacks that make no scheduler call, `alarm_handler_run` leaves the
state `alarm_handler` leaves, and all its mutations and its `setitimer` call
happen with SIGALRM blocked. -/
theorem alarm_handler_run_quiet (s : State) (sys : Sys) (fuel : Nat)
    (hfuel : s.events.length < fuel) :
    ∃ acts, alarm_handler_run (fun _ _ => []) fuel s sys
        = some ((alarm_handler s sys).state, acts) ∧
      ∀ m, guarded m acts = true := by
  unfold alarm_handler_run alarm_handler
  cases hb : sys.sigprocmask_ok with
  | false => exact ⟨[], by simp, fun m => rfl⟩
  | true =>
    cases hg : sys.gettimeofday with
    | none => exact ⟨[Act.block, Act.unblock], by simp, fun m => rfl⟩
    | some now =>
      have hl := alarm_loop_quiet now s.timer s.events fuel hfuel
      simp only [Bool.true_eq_false, if_false, hl]
      cases hq : (alarm_scan now s.events).2 with
      | nil =>
        refine ⟨_, rfl, fun m => ?_⟩
        simp [guarded, guarded_replicate_mutate]
      | cons c r =>
        refine ⟨_, rfl, fun m => ?_⟩
        simp [guarded, guarded_replicate_mutate]

/-- C17: the code at the claim's nested case.  The queue holds A (2s, callback
1) and B (3s, callback 2), both due at clock 5s, and callback 1 calls
`schedule(5s)`.  The handler blocks SIGALRM and unlinks A; the nested
`schedule` blocks, inserts and unblocks; the handler then unlinks B and calls
`setitimer` with SIGALRM unblocked.  The same happens to the `setitimer` call
of the handler when a single due entry reschedules itself. -/
theorem nested_unblock_exposes_handler :
    alarm_handler_run (fun func _ =>
        if func = 1 then [Call.schedule ⟨5, 0⟩ 3 0 ⟨102, some ⟨5, 0⟩, true, true⟩] else [])
      3 ⟨[⟨100, ⟨2, 0⟩, 1, 0⟩, ⟨101, ⟨3, 0⟩, 2, 0⟩], none⟩ ⟨0, some ⟨5, 0⟩, true, true⟩
    = some (⟨[⟨102, ⟨10, 0⟩, 3, 0⟩], some 10000000⟩,
        [Act.block, Act.mutate, Act.block, Act.mutate, Act.unblock, Act.mutate,
          Act.arm, Act.unblock]) ∧
    guarded true [Act.block, Act.mutate, Act.block, Act.mutate, Act.unblock, Act.mutate,
      Act.arm, Act.unblock] = false ∧
    alarm_handler_run (fun func _ =>
        if func = 1 then [Call.schedule ⟨5, 0⟩ 1 0 ⟨101, some ⟨5, 0⟩, true, true⟩] else [])
      2 ⟨[⟨100, ⟨5, 0⟩, 1, 0⟩], none⟩ ⟨0, some ⟨5, 0⟩, true, true⟩
    = some (⟨[⟨101, ⟨10, 0⟩, 1, 0⟩], some 10000000⟩,
        [Act.block, Act.mutate, Act.block, Act.mutate, Act.arm, Act.unblock,
          Act.arm, Act.unblock]) ∧
    guarded true [Act.block, Act.mutate, Act.block, Act.mutate, Act.arm, Act.unblock,
      Act.arm, Act.unblock] = false := by
  decide

end Scheduler
